import Mathlib

/-!
Verification of the workflow execution engine (workflow_manager/core) against its
specification.  The definitions below are a shallow embedding of the Python source:
dictionaries become association lists (preserving insertion order, as Python dicts
iterate in insertion order), Python values become the inductive type `Value`,
exceptions become `Except`/`Option`, and the non-reentrant `threading.Lock` of
`WorkflowContext` is modelled by an explicit boolean with acquisition of a held
lock denoted `none` (the acquiring thread blocks forever).
-/

namespace WorkflowManager

/-- Python values appearing in workflow configurations, contexts and result
dictionaries: None, strings, integers, booleans, lists and dicts. -/
inductive Value where
  | vnone : Value
  | str (s : String) : Value
  | int (n : Int) : Value
  | bool (b : Bool) : Value
  | list (xs : List Value) : Value
  | dict (xs : List (String × Value)) : Value

/-- Python truthiness (`if not result.get(..)` style checks): None, False, 0,
empty string, empty list and empty dict are falsy, everything else truthy. -/
def truthy : Value → Bool
  | .vnone => false
  | .bool b => b
  | .int n => decide (n ≠ 0)
  | .str s => decide (s ≠ "")
  | .list xs => !xs.isEmpty
  | .dict xs => !xs.isEmpty

/-- Test for the Python comparison `x == -1` on the values we model (used for the
timeout classification in `Workflow.execute`): only the integer -1 passes. -/
def isIntNegOne : Value → Bool
  | .int n => decide (n = -1)
  | _ => false

/-- Test for Python `x is None`. -/
def isVNone : Value → Bool
  | .vnone => true
  | _ => false

mutual

/-- Python str() of a value, as used when substituting a context value into a
placeholder (`str(value)` in context.py line 48 and workflow.py line 134).
Container rendering is repr-like but elides quoting of nested strings; no claim
depends on the container case. -/
def pyStr : Value → String
  | .vnone => "None"
  | .str s => s
  | .int n => toString n
  | .bool true => "True"
  | .bool false => "False"
  | .list xs => "[" ++ pyStrList xs ++ "]"
  | .dict xs => "\x7b" ++ pyStrDict xs ++ "\x7d"

/-- Comma-separated rendering of a list of values. -/
def pyStrList : List Value → String
  | [] => ""
  | [x] => pyStr x
  | x :: y :: xs => pyStr x ++ ", " ++ pyStrList (y :: xs)

/-- Comma-separated rendering of dict entries. -/
def pyStrDict : List (String × Value) → String
  | [] => ""
  | [(k, v)] => k ++ ": " ++ pyStr v
  | (k, v) :: e :: xs => k ++ ": " ++ pyStr v ++ ", " ++ pyStrDict (e :: xs)

end

/-- Lookup in a Python dict modelled as an association list (`d.get(k)`). -/
def dget (m : List (String × Value)) (k : String) : Option Value :=
  m.lookup k

/-- Lookup with default, Python `d.get(k, default)`. -/
def dgetD (m : List (String × Value)) (k : String) (d : Value) : Value :=
  (m.lookup k).getD d

/-- Assignment `d[k] = v` on a Python dict: overwrite in place if the key exists
(keeping its position in insertion order), else append. -/
def dset (m : List (String × Value)) (k : String) (v : Value) : List (String × Value) :=
  if (m.lookup k).isSome then
    m.map (fun p => if p.1 = k then (k, v) else p)
  else m ++ [(k, v)]

/-- Membership test `k in d` for a Python dict. -/
def dmem (m : List (String × Value)) (k : String) : Bool :=
  (m.lookup k).isSome

/-! ### The placeholder regular expression

Both `WorkflowContext.resolve_placeholders` and the dependency analyzer scan text
with the regex `\x7b\x7b([^\x7d]+)\x7d\x7d`: two opening braces, a nonempty run
of characters other than a closing brace (captured), then two closing braces.
`matchPH` attempts the match at the start of a character list; `findPHFuel`
realizes `re.findall`, scanning left to right, non-overlapping, moving one
character forward after each failed attempt.  The fuel argument (instantiated
with the length of the input) only serves to make the recursion structural. -/

/-- Attempt the placeholder regex at the head of the text; on success return the
captured group and the remainder after the match.  The greedy nonempty run of
characters other than a closing brace is the takeWhile prefix; the match
succeeds when two closing braces follow it. -/
def matchPH : List Char → Option (List Char × List Char)
  | c1 :: c2 :: rest =>
    if c1 = '{' ∧ c2 = '{' then
      match rest.takeWhile (fun c => c ≠ '}'), rest.dropWhile (fun c => c ≠ '}') with
      | g :: gs, d1 :: d2 :: rest3 =>
        if d1 = '}' ∧ d2 = '}' then some (g :: gs, rest3) else none
      | _, _ => none
    else none
  | _ => none

/-- Fueled scan collecting every captured group, left to right. -/
def findPHFuel : Nat → List Char → List String
  | 0, _ => []
  | _, [] => []
  | fuel + 1, c :: cs =>
    match matchPH (c :: cs) with
    | some (g, rest) => String.mk g :: findPHFuel fuel rest
    | none => findPHFuel fuel cs

/-- Model of `re.findall(r.., text)` for the placeholder pattern. -/
def findPH (l : List Char) : List String :=
  findPHFuel l.length l

/-- Placeholder groups of a string. -/
def placeholders (s : String) : List String :=
  findPH s.toList

/-- Test whether `pat` occurs as a contiguous substring (Python `pat in s`). -/
def strContains (s pat : String) : Bool :=
  decide (pat.toList.IsInfix s.toList)

/-- The literal two-character string of opening braces. -/
def phOpen : String := "\x7b\x7b"

/-- The literal two-character string of closing braces. -/
def phClose : String := "\x7d\x7d"

/-- Surround a placeholder name with double braces, as in the f-string
`f..\x7b\x7b..placeholder..\x7d\x7d..` of workflow.py line 134. -/
def phToken (ph : String) : String := phOpen ++ ph ++ phClose

/-- Fueled left-to-right non-overlapping replacement on character lists; the
pattern is assumed nonempty (all patterns we use are placeholder tokens). -/
def pyReplaceFuel (pat rep : List Char) : Nat → List Char → List Char
  | 0, l => l
  | _ + 1, [] => []
  | fuel + 1, c :: cs =>
    if pat.isPrefixOf (c :: cs) then
      rep ++ pyReplaceFuel pat rep fuel ((c :: cs).drop pat.length)
    else
      c :: pyReplaceFuel pat rep fuel cs

/-- Model of Python `s.replace(pat, rep)` for a nonempty pattern (the degenerate
empty pattern never occurs in the embedded code paths). -/
def pyReplace (s pat rep : String) : String :=
  if pat = "" then s
  else String.mk (pyReplaceFuel pat.toList rep.toList s.toList.length s.toList)

/-! ### WorkflowContext (context.py)

The context owns a plain dict `_data` and a non-reentrant `threading.Lock`.  We
model the lock explicitly: `locked = true` means the single control thread holds
it, and an acquire attempted while it is held never returns, which the shallow
embedding denotes by `none`.  Operations that acquire a free lock, run a body
that does not touch the lock, and release it are total and are also given in
their pure form (suffix P) for use on the engine paths, where every call happens
with the lock free. -/

/-- State of a WorkflowContext: its `_data` dict and whether its lock is held. -/
structure Ctx where
  data : List (String × Value)
  locked : Bool

/-- Method get (context.py 20-23): acquire the lock, read with default None,
release.  Blocks forever (none) if the lock is already held. -/
def ctxGet (c : Ctx) (key : String) : Option Value :=
  if c.locked then none else some (dgetD c.data key .vnone)

/-- Method set (context.py 15-18) in its pure form (lock free at every call site
on the engine paths). -/
def ctxSetP (d : List (String × Value)) (key : String) (v : Value) :
    List (String × Value) :=
  dset d key v

/-- Method get_all (context.py 30-33) in its pure form: a copy of the data dict.
Aliasing of the copy with the internal storage is analyzed separately with the
heap model below. -/
def ctxGetAllP (d : List (String × Value)) : List (String × Value) :=
  d

/-- The substitution callback replace_placeholder (context.py 45-48).  It runs
inside re.sub while resolve_placeholders holds the lock, and its first action is
self.get, which tries to take the same lock again: with the lock held the call
never returns.  A returned value of None keeps the full match verbatim. -/
def replaceCallback (c : Ctx) (g : String) : Option String := do
  let v ← ctxGet c g
  pure (if isVNone v then phToken g else pyStr v)

/-- Fueled model of re.sub over the placeholder pattern with the effectful
callback; scans left to right, non-overlapping. -/
def rsubFuel (c : Ctx) : Nat → List Char → Option (List Char)
  | 0, l => some l
  | _ + 1, [] => some []
  | fuel + 1, ch :: cs =>
    match matchPH (ch :: cs) with
    | some (g, rest) => do
      let rep ← replaceCallback c (String.mk g)
      let tail ← rsubFuel c fuel rest
      pure (rep.toList ++ tail)
    | none => do
      let tail ← rsubFuel c fuel cs
      pure (ch :: tail)

/-- Method resolve_placeholders (context.py 40-51) on a string argument: acquire
the lock, then run re.sub whose callback re-acquires the same lock.  The lock
state passed to the callback is therefore held. -/
def resolvePlaceholders (c : Ctx) (text : String) : Option String :=
  if c.locked then none
  else do
    let out ← rsubFuel { c with locked := true } text.toList.length text.toList
    pure (String.mk out)

mutual

/-- Method resolve_config (context.py 53-68): resolve string values through
resolve_placeholders, recurse into dict values, and resolve string items of list
values, leaving everything else untouched. -/
def resolveConfigEntries (c : Ctx) : List (String × Value) → Option (List (String × Value))
  | [] => some []
  | (k, v) :: rest => do
    let rv ← resolveConfigValue c v
    let rrest ← resolveConfigEntries c rest
    pure ((k, rv) :: rrest)

/-- Resolution of one configuration value inside resolve_config. -/
def resolveConfigValue (c : Ctx) : Value → Option Value
  | .str s => do
    let r ← resolvePlaceholders c s
    pure (.str r)
  | .dict xs => do
    let r ← resolveConfigEntries c xs
    pure (.dict r)
  | .list xs => do
    let r ← resolveConfigItems c xs
    pure (.list r)
  | v => some v

/-- Resolution of one list item inside resolve_config: only a string item is
resolved, every other item is kept as is. -/
def resolveConfigItem (c : Ctx) : Value → Option Value
  | .str s => do
    let r ← resolvePlaceholders c s
    pure (.str r)
  | v => some v

/-- Resolution of the items of a list value inside resolve_config. -/
def resolveConfigItems (c : Ctx) : List Value → Option (List Value)
  | [] => some []
  | v :: rest => do
    let rv ← resolveConfigItem c v
    let rrest ← resolveConfigItems c rest
    pure (rv :: rrest)

end

/-! ### The lock-free manual substitution of _execute_component

Lines 124-137 of workflow.py deliberately bypass resolve_placeholders: they read
`self.context._data` directly (no lock) and substitute each placeholder found by
re.findall with Python str.replace on the accumulated string, skipping keys that
are absent or bound to None. -/

/-- Manual substitution applied to one string parameter (workflow.py 128-134). -/
def lockFreeResolveStr (data : List (String × Value)) (s : String) : String :=
  (placeholders s).foldl (fun acc ph =>
    match data.lookup ph with
    | none => acc
    | some v => if isVNone v then acc else pyReplace acc (phToken ph) (pyStr v)) s

/-- Manual substitution applied to one configuration value: only strings that
contain both brace pairs are rewritten (workflow.py 125-137). -/
def lockFreeResolveVal (data : List (String × Value)) : Value → Value
  | .str s =>
    if strContains s phOpen && strContains s phClose then
      .str (lockFreeResolveStr data s)
    else .str s
  | v => v

/-- The resolved_config dict built by _execute_component, entry by entry in
iteration order. -/
def lockFreeResolveConfig (data : List (String × Value))
    (config : List (String × Value)) : List (String × Value) :=
  config.foldl (fun acc p => dset acc p.1 (lockFreeResolveVal data p.2)) []

mutual

/-- Test whether some string value reachable by resolve_config carries a
placeholder token (a match of the scan), at the top level of a config dict. -/
def entriesHavePH : List (String × Value) → Bool
  | [] => false
  | (_, v) :: rest => valueHasPH v || entriesHavePH rest

/-- Placeholder presence in one config value, along the recursion of
resolve_config (nested dicts, string items of lists). -/
def valueHasPH : Value → Bool
  | .str s => !(placeholders s).isEmpty
  | .dict xs => entriesHavePH xs
  | .list xs => itemsHavePH xs
  | _ => false

/-- Placeholder presence in one list item (only string items are resolved). -/
def strItemHasPH : Value → Bool
  | .str s => !(placeholders s).isEmpty
  | _ => false

/-- Placeholder presence among the string items of a list value. -/
def itemsHavePH : List Value → Bool
  | [] => false
  | v :: rest => strItemHasPH v || itemsHavePH rest

end

/-! ### Workflow structure (workflow.py)

A workflow definition maps step ids to step configurations.  Python dicts keep
insertion order, so the component map is an association list; the engine
accesses configuration keys through `.get` with the defaults recorded below. -/

/-- Parsed configuration of one step, with the defaults the engine applies. -/
structure StepConfig where
  component : String := ""
  setupName : String := "default"
  action_type : Option String := none
  event_type : Option String := none
  is_trigger : Bool := false
  config : List (String × Value) := []
  output_mapping : List (String × String) := []

instance : Inhabited StepConfig := ⟨{}⟩

/-- Insertion into a defaultdict(set) value: Python set add, modelled as an
append-if-absent on a duplicate-free list. -/
def addToSet (s : List String) (x : String) : List String :=
  if x ∈ s then s else s ++ [x]

/-- The statement `dependencies[component_id].add(other_id)` on a
defaultdict(set): create the entry if missing, else extend its set. -/
def depAdd (g : List (String × List String)) (cid other : String) :
    List (String × List String) :=
  if (g.lookup cid).isSome then
    g.map (fun p => if p.1 = cid then (cid, addToSet p.2 other) else p)
  else g ++ [(cid, [other])]

/-- Dependency set of a step in the built graph (empty when absent). -/
def depsOf (g : List (String × List String)) (x : String) : List String :=
  (g.lookup x).getD []

/-- Innermost loop of _build_dependency_graph (workflow.py 48-53): for one
placeholder of one step, search every other step whose output-alias values
contain it and record the edge. -/
def scanProducers (components : List (String × StepConfig)) (cid ph : String)
    (g : List (String × List String)) : List (String × List String) :=
  components.foldl (fun g q =>
    if q.1 ≠ cid ∧ ph ∈ q.2.output_mapping.map Prod.snd then depAdd g cid q.1
    else g) g

/-- Treatment of one configuration value in _build_dependency_graph
(workflow.py 41-53): strings containing both brace pairs are scanned for
placeholders, everything else contributes nothing. -/
def scanValue (components : List (String × StepConfig)) (cid : String)
    (g : List (String × List String)) : Value → List (String × List String)
  | .str s =>
    if strContains s phOpen && strContains s phClose then
      (placeholders s).foldl (fun g ph => scanProducers components cid ph g) g
    else g
  | _ => g

/-- Method _build_dependency_graph (workflow.py 34-55): for every string-valued
parameter containing both brace pairs, find its placeholder tokens and record an
edge to every other step whose output-alias values contain the token. -/
def buildDependencyGraph (components : List (String × StepConfig)) :
    List (String × List String) :=
  components.foldl (fun g p =>
    p.2.config.foldl (fun g kv => scanValue components p.1 g kv.2) g) []

/-- One pop of Kahn's algorithm (workflow.py 78-82): walk the dependency map in
insertion order; for every step that depends on the popped id, decrement its
in-degree, and append it to the queue when the in-degree reaches zero.  The
in-degree table is a Python dict used only pointwise here, modelled as a
function. -/
def processPop (cur : String) :
    List (String × List String) → (String → Int) → ((String → Int) × List String)
  | [], f => (f, [])
  | (cid, ds) :: rest, f =>
    if cur ∈ ds then
      let v := f cid - 1
      let f1 : String → Int := fun x => if x = cid then v else f x
      let r := processPop cur rest f1
      (r.1, (if v = 0 then [cid] else []) ++ r.2)
    else processPop cur rest f

/-- Main loop of Kahn's algorithm (workflow.py 73-82).  The fuel argument makes
the recursion structural; `topologicalSort` supplies the number of steps, which
the invariant proofs show never runs out before the queue empties. -/
def kahnLoop (deps : List (String × List String)) :
    Nat → List String → (String → Int) → List String → List String
  | 0, _, _, result => result
  | _ + 1, [], _, result => result
  | fuel + 1, cur :: queue, f, result =>
    let pr := processPop cur deps f
    kahnLoop deps fuel (queue ++ pr.2) pr.1 (result ++ [cur])

/-- Method _topological_sort (workflow.py 57-88): seed the queue with the steps
of in-degree zero in insertion order, run Kahn's loop, and raise ValueError when
the produced order misses a step (a cycle). -/
def topologicalSort (components : List (String × StepConfig))
    (deps : List (String × List String)) : Except String (List String) :=
  let ids := components.map Prod.fst
  let f0 : String → Int := fun x => ((depsOf deps x).length : Int)
  let queue0 := ids.filter (fun i => (depsOf deps i).isEmpty)
  let result := kahnLoop deps ids.length queue0 f0 []
  if result.length ≠ components.length then
    .error "Circular dependency detected in workflow"
  else .ok result

/-- Constructed workflow object (the fields of Workflow.__init__ the engine
uses). -/
structure Workflow where
  name : String
  components : List (String × StepConfig)
  dependencies : List (String × List String)

/-- Constructor Workflow.__init__ (workflow.py 15-32): an empty component map is
rejected with ValueError, otherwise the dependency graph is built eagerly. -/
def workflowInit (name : String) (components : List (String × StepConfig)) :
    Except String Workflow :=
  if components.isEmpty then .error "Workflow has no components"
  else .ok { name := name, components := components,
             dependencies := buildDependencyGraph components }

/-- Edge relation of the inferred dependency graph: `depEdge g x y` holds when
step x depends on step y. -/
def depEdge (g : List (String × List String)) (x y : String) : Prop :=
  y ∈ depsOf g x

/-- Acyclicity of the dependency relation: no step transitively depends on
itself. -/
def Acyclic (g : List (String × List String)) : Prop :=
  ∀ x, ¬ Relation.TransGen (depEdge g) x x

/-! ### Execution engine (workflow.py 90-340)

The engine drives external component/action/event code through the factories.
That code is abstracted by a `Behavior`: component creation and setup may raise,
actions and events may raise or return a result dict.  Every theorem about the
engine quantifies over the behavior, so nothing about the external code is
assumed beyond its interface.  `EventFactory.create` constructs a fresh event
object on every call (factory.py 108-115); the run state keeps a ledger of the
created instances with their is_listening flag so that listener identity is
observable (needed for the cleanup claims). -/

/-- Result dictionaries and the context data dict. -/
abbrev Dict := List (String × Value)

/-- External code as seen by the engine. -/
structure Behavior where
  createComp : String → StepConfig → Except String Unit
  runAction : String → Dict → Dict → Except String Dict
  runEvent : String → Dict → Dict → Except String Dict

/-- One event object created by EventFactory.create, with its identity and its
is_listening flag. -/
structure EventInst where
  eid : Nat
  owner : String
  listening : Bool

/-- Mutable state threaded through a run: the context data, the ledger of event
instances, the allocation counter, and a ghost trace of the step executions
attempted (in order). -/
structure RunState where
  ctx : Dict := []
  insts : List EventInst := []
  nextId : Nat := 0
  trace : List String := []

/-- Update of the is_listening flag of one event instance. -/
def setListening (l : List EventInst) (eid : Nat) (b : Bool) : List EventInst :=
  l.map (fun i => if i.eid = eid then { i with listening := b } else i)

/-- Reading the is_running state of one event instance. -/
def instRunning (l : List EventInst) (eid : Nat) : Bool :=
  match l.find? (fun i => i.eid == eid) with
  | some i => i.listening
  | none => false

/-- Storage of a result dict into the context through the output-alias mapping
(workflow.py 173-177). -/
def storeOutputs (cfg : StepConfig) (r : Dict) (st : RunState) : Dict × RunState :=
  let ctx2 := cfg.output_mapping.foldl (fun d km =>
    match r.lookup km.1 with
    | some v => ctxSetP d km.2 v
    | none => d) st.ctx
  (r, { st with ctx := ctx2 })

/-- Method _execute_component (workflow.py 107-184): create the component (a
raise propagates, line 184), resolve the configuration with the lock-free
manual substitution, dispatch to the action or event, mark persistent listeners,
and store outputs under their aliases.  Event dispatch allocates a fresh event
instance; a returning slack execute has started its listener thread, so the
instance is listening afterwards (slack.py 336-343). -/
def executeComponentS (beh : Behavior) (st0 : RunState) (cid : String)
    (cfg : StepConfig) : Except (String × RunState) (Dict × RunState) :=
  let st := { st0 with trace := st0.trace ++ [cid] }
  match beh.createComp cid cfg with
  | .error e => .error (e, st)
  | .ok _ =>
    let resolved := lockFreeResolveConfig st.ctx cfg.config
    match cfg.action_type with
    | some _ =>
      match beh.runAction cid resolved st.ctx with
      | .error e => .error (e, st)
      | .ok r => .ok (storeOutputs cfg r st)
    | none =>
      match cfg.event_type with
      | some _ =>
        let eid := st.nextId
        let st1 := { st with
          insts := st.insts ++ [{ eid := eid, owner := cid, listening := false }],
          nextId := eid + 1 }
        match beh.runEvent cid resolved st1.ctx with
        | .error e => .error (e, st1)
        | .ok r =>
          let st2 := { st1 with insts := setListening st1.insts eid true }
          let r1 := if cfg.is_trigger && instRunning st2.insts eid then
              dset r "persistent_listener" (.bool true)
            else r
          .ok (storeOutputs cfg r1 st2)
      | none =>
        .ok (storeOutputs cfg
          [("success", .bool true), ("message", .str "Component executed successfully")] st)

/-- Failure dictionary returned by execute on an error (workflow.py 230-235 and
261-265): success False, the error text, and the context snapshot.  The dict
carries no per-step results key. -/
def failDict (e : String) (ctx : Dict) : Dict :=
  [("success", .bool false), ("error", .str e), ("context", .dict ctx)]

/-- Access `self.components[component_id]` of the engine (the loops index the
component map by the ids of the computed order, which are always present). -/
def stepCfg (components : List (String × StepConfig)) (cid : String) : StepConfig :=
  (components.lookup cid).getD default

/-- Outcome of the classification pass over the execution order. -/
inductive PassOut where
  | raised (e : String) (st : RunState)
  | early (res : Dict) (st : RunState)
  | done (pts : List String) (acts : List String) (st : RunState)

/-- Classification pass (workflow.py 219-237): walk the order; triggers whose
timeout equals -1 become persistent triggers, any other trigger is executed on
the spot (failure returns a failure dict immediately, a raise aborts), and all
remaining steps are collected as action components. -/
def classifyPass (beh : Behavior) (components : List (String × StepConfig)) :
    List String → RunState → List String → List String → PassOut
  | [], st, pts, acts => .done pts acts st
  | cid :: rest, st, pts, acts =>
    let cfg := stepCfg components cid
    if cfg.is_trigger then
      if isIntNegOne (dgetD cfg.config "timeout" (.int (-1))) then
        classifyPass beh components rest st (pts ++ [cid]) acts
      else
        match executeComponentS beh st cid cfg with
        | .error (e, st2) => .raised e st2
        | .ok (r, st2) =>
          if truthy (dgetD r "success" (.bool false)) then
            classifyPass beh components rest st2 pts acts
          else
            .early (failDict ("Trigger " ++ cid ++ " failed: " ++
              pyStr (dgetD r "error" (.str "Unknown error"))) st2.ctx) st2
    else classifyPass beh components rest st pts (acts ++ [cid])

/-- Batch pass (workflow.py 244-248): execute every component of the order once,
accumulating the per-step results dict; a raise aborts the loop and discards the
accumulated results. -/
def batchLoop (beh : Behavior) (components : List (String × StepConfig)) :
    List String → RunState → Dict → Except (String × RunState) (Dict × RunState)
  | [], st, results => .ok (results, st)
  | cid :: rest, st, results =>
    let cfg := stepCfg components cid
    match executeComponentS beh st cid cfg with
    | .error (e, st2) => .error (e, st2)
    | .ok (r, st2) => batchLoop beh components rest st2 (dset results cid (.dict r))

/-- Result dict reported when the reactive workflow has started
(workflow.py 334-340). -/
def reactiveOkDict (pts acts : List String) (ctx : Dict) : Dict :=
  [("success", .bool true),
   ("message", .str "Reactive workflow started. Event listeners are active and will execute actions on each trigger."),
   ("persistent_triggers", .list (pts.map .str)),
   ("action_components", .list (acts.map .str)),
   ("context", .dict ctx)]

/-- Method _execute_reactive_workflow (workflow.py 267-340): for every
persistent trigger, create its component (a raise propagates to the outer
except), resolve its configuration with the locking resolve_config (a
placeholder deadlocks: none), create a fresh event instance, attach the
callback, and start it; a started event is listening.  A non-truthy success
returns a failure dict, otherwise the reactive started dict is returned. -/
def reactiveStart (beh : Behavior) (components : List (String × StepConfig))
    (ptsAll acts : List String) :
    List String → RunState → Option (Except (String × RunState) (Dict × RunState))
  | [], st => some (.ok (reactiveOkDict ptsAll acts st.ctx, st))
  | tid :: rest, st =>
    let cfg := stepCfg components tid
    match beh.createComp tid cfg with
    | .error e => some (.error (e, st))
    | .ok _ =>
      match resolveConfigEntries { data := st.ctx, locked := false } cfg.config with
      | none => none
      | some resolved =>
        let eid := st.nextId
        let st1 := { st with
          insts := st.insts ++ [{ eid := eid, owner := tid, listening := false }],
          nextId := eid + 1 }
        match beh.runEvent tid resolved st1.ctx with
        | .error e => some (.error (e, st1))
        | .ok r =>
          let st2 := { st1 with insts := setListening st1.insts eid true }
          if truthy (dgetD r "success" (.bool false)) then
            reactiveStart beh components ptsAll acts rest st2
          else
            some (.ok (failDict ("Failed to start persistent trigger " ++ tid ++ ": " ++
              pyStr (dgetD r "error" (.str "Unknown error"))) st2.ctx, st2))

/-- Batch tail of execute (workflow.py 242-255): run the batch pass, catching a
raise into a failure dict, and report the per-step results and the context
snapshot on success. -/
def executeBatchTail (beh : Behavior) (wf : Workflow) (order : List String)
    (st : RunState) : Option (Dict × RunState) :=
  match batchLoop beh wf.components order st [] with
  | .error (e, st2) => some (failDict e st2.ctx, st2)
  | .ok (results, st2) =>
    some ([("success", .bool true), ("results", .dict results),
           ("context", .dict st2.ctx)], st2)

/-- Reactive tail of execute (workflow.py 239-241 with 267-340): start the
listeners, catching a raise into a failure dict; none records that the engine
blocked forever inside resolve_config. -/
def executeReactiveTail (beh : Behavior) (wf : Workflow) (pts acts : List String)
    (st : RunState) : Option (Dict × RunState) :=
  match reactiveStart beh wf.components pts acts pts st with
  | none => none
  | some (.error (e, st2)) => some (failDict e st2.ctx, st2)
  | some (.ok (res, st2)) => some (res, st2)

/-- Continuation of execute after the classification pass. -/
def executeAfterClassify (beh : Behavior) (wf : Workflow) (order : List String) :
    PassOut → Option (Dict × RunState)
  | .raised e st => some (failDict e st.ctx, st)
  | .early res st => some (res, st)
  | .done pts acts st =>
    if pts.isEmpty then executeBatchTail beh wf order st
    else executeReactiveTail beh wf pts acts st

/-- Continuation of execute after the topological sort. -/
def executeAfterSort (beh : Behavior) (wf : Workflow) :
    Except String (List String) → Option (Dict × RunState)
  | .error e => some (failDict e ({} : RunState).ctx, {})
  | .ok order =>
    executeAfterClassify beh wf order (classifyPass beh wf.components order {} [] [])

/-- Method execute (workflow.py 207-265): compute the order (a cycle raises into
the outer except before any step runs), classify the steps, then run either the
reactive path or the batch path; every raise is caught and turned into a failure
dict carrying the context snapshot at the time of the raise.  The result is
none exactly when the engine blocks forever inside resolve_config. -/
def executeWorkflow (beh : Behavior) (wf : Workflow) : Option (Dict × RunState) :=
  executeAfterSort beh wf (topologicalSort wf.components wf.dependencies)

/-- Method cleanup (workflow.py 186-205): walk every component; for trigger
steps with an event type, create the component (any raise is caught and logged,
the loop continues), resolve the configuration with the locking resolve_config
(a placeholder deadlocks the cleanup: none), then create a fresh event instance
with EventFactory.create and call stop_listening on that new instance — the
fresh object joins in the stopped state, while previously created instances are
untouched. -/
def cleanupS (beh : Behavior) :
    List (String × StepConfig) → RunState → Option RunState
  | [], st => some st
  | (cid, cfg) :: rest, st =>
    if cfg.event_type.isSome && cfg.is_trigger then
      match beh.createComp cid cfg with
      | .error _ => cleanupS beh rest st
      | .ok _ =>
        match resolveConfigEntries { data := st.ctx, locked := false } cfg.config with
        | none => none
        | some _ =>
          let st1 := { st with
            insts := st.insts ++ [{ eid := st.nextId, owner := cid, listening := false }],
            nextId := st.nextId + 1 }
          cleanupS beh rest st1
    else cleanupS beh rest st

/-! ### Reactive callback (workflow.py 276-304)

The callback bound to a persistent trigger writes the event payload into the
context through the trigger aliases and then executes every action component in
order; a raise from one action is caught and logged and the loop continues, a
non-truthy success is logged and the loop continues. -/

/-- Log entry of one action execution inside a callback cycle. -/
inductive CycleStep where
  | raised (cid : String) (e : String)
  | finished (cid : String) (ok : Bool)

/-- Step id of a log entry. -/
def CycleStep.cid : CycleStep → String
  | .raised c _ => c
  | .finished c _ => c

/-- Action chain of one callback firing (workflow.py 287-301). -/
def callbackActions (beh : Behavior) (components : List (String × StepConfig)) :
    List String → RunState → List CycleStep → RunState × List CycleStep
  | [], st, log => (st, log)
  | cid :: rest, st, log =>
    let cfg := stepCfg components cid
    match executeComponentS beh st cid cfg with
    | .error (e, st2) => callbackActions beh components rest st2 (log ++ [.raised cid e])
    | .ok (r, st2) =>
      callbackActions beh components rest st2
        (log ++ [.finished cid (truthy (dgetD r "success" (.bool false)))])

/-- Function workflow_callback (workflow.py 277-302): store the payload fields
under the trigger aliases, then run the action chain. -/
def workflowCallback (beh : Behavior) (components : List (String × StepConfig))
    (triggerCfg : StepConfig) (acts : List String) (msg : Dict) (st : RunState) :
    RunState × List CycleStep :=
  let ctx1 := triggerCfg.output_mapping.foldl (fun d km =>
    match msg.lookup km.1 with
    | some v => ctxSetP d km.2 v
    | none => d) st.ctx
  callbackActions beh components acts { st with ctx := ctx1 } []

/-- Listener loop as seen from _handle_message (slack.py 279-288): every
delivered event runs the callback inside try/except, so the listener survives
any cycle and goes on to the next event. -/
def processEvents (beh : Behavior) (components : List (String × StepConfig))
    (triggerCfg : StepConfig) (acts : List String) :
    List Dict → RunState → RunState × List (List CycleStep)
  | [], st => (st, [])
  | m :: ms, st =>
    let p := workflowCallback beh components triggerCfg acts m st
    let q := processEvents beh components triggerCfg acts ms p.1
    (q.1, p.2 :: q.2)

/-! ### Slack one-shot trigger (slack.py 320-399)

The timeout branch of ReceiveMessageEvent.execute blocks on the message queue
for the configured number of seconds and reports a non-raising failure result
when nothing arrives.  The external message arrival is a parameter; `none`
for a persistent wait without a callback means the call blocks forever. -/

/-- Result dict of the timeout path (slack.py 383-390). -/
def slackTimeoutResult (channel timeout : Value) : Dict :=
  [("message_text", .str ""), ("user_id", .str ""), ("channel", channel),
   ("timestamp", .str ""), ("success", .bool false),
   ("error", .str ("No matching message received within " ++ pyStr timeout ++ " seconds"))]

/-- Method ReceiveMessageEvent.execute: raise on a missing channel or an
unconfigured socket client, return the reactive marker for a persistent
listener with a callback, block for the first message without one, and run the
bounded wait for a finite timeout. -/
def slackReceiveExecute (config : Dict) (socketOk hasCallback : Bool)
    (arrived : Option Dict) : Option (Except String Dict) :=
  let channel := dgetD config "channel" .vnone
  let timeout := dgetD config "timeout" (.int (-1))
  if !truthy channel then some (.error "Channel is required in event configuration")
  else if !socketOk then
    some (.error "Slack component not properly configured for Socket Mode")
  else if isIntNegOne timeout then
    if hasCallback then
      some (.ok [("message_text", .str ""), ("user_id", .str ""), ("channel", channel),
                 ("timestamp", .str ""), ("success", .bool true),
                 ("reactive_listener", .bool true)])
    else
      match arrived with
      | some m => some (.ok m)
      | none => none
  else
    match arrived with
    | some m => some (.ok m)
    | none => some (.ok (slackTimeoutResult channel timeout))

/-! ### Projections used in theorem statements -/

/-- Boolean field of a result dict lookup. -/
def getBool : Option Value → Option Bool
  | some (.bool b) => some b
  | _ => none

/-- String field of a result dict lookup. -/
def getStr : Option Value → Option String
  | some (.str s) => some s
  | _ => none

/-- Dict field of a result dict lookup. -/
def getDictV : Option Value → Option Dict
  | some (.dict d) => some d
  | _ => none

/-! ### Heap model for the snapshot claim (context.py 30-33)

The statement `self._data.copy()` is a shallow copy: the returned dict is a new
object whose entries reference the same value objects.  To make aliasing
observable in the embedding, a small heap assigns addresses to mutable Python
objects; a dict object holds references, scalars are immutable.  Snapshot
allocates a new dict cell with the same entry list; the context data itself
lives at a fixed address. -/

/-- One heap object: an immutable scalar or a mutable dict of references. -/
inductive PyObj where
  | prim (v : Value)
  | pdict (entries : List (String × Nat))

/-- Heap of allocated objects, addresses below the allocation counter. -/
structure Heap where
  cells : List (Nat × PyObj)
  next : Nat

/-- Heap read. -/
def hget (h : Heap) (a : Nat) : Option PyObj :=
  h.cells.lookup a

/-- In-place overwrite of one existing cell (object mutation). -/
def hset (h : Heap) (a : Nat) (o : PyObj) : Heap :=
  { h with cells := h.cells.map (fun p => if p.1 = a then (a, o) else p) }

/-- Allocation of a fresh object. -/
def halloc (h : Heap) (o : PyObj) : Nat × Heap :=
  (h.next, { cells := h.cells ++ [(h.next, o)], next := h.next + 1 })

/-- Addresses referenced by an object. -/
def objRefs : PyObj → List Nat
  | .prim _ => []
  | .pdict es => es.map Prod.snd

/-- Well-formed heap: distinct addresses, all below the allocation counter, and
every reference resolvable below the counter. -/
def HeapWF (h : Heap) : Prop :=
  (h.cells.map Prod.fst).Nodup ∧
  ∀ p ∈ h.cells, p.1 < h.next ∧ ∀ a ∈ objRefs p.2, a < h.next

/-- Observable value of an object graph from an address; fuel bounds the depth
and only needs to exceed the (finite, acyclic) reference depth at the concrete
inputs of the claims. -/
def deepRead (h : Heap) : Nat → Nat → Option Value
  | 0, _ => none
  | fuel + 1, a =>
    match hget h a with
    | some (.prim v) => some v
    | some (.pdict es) =>
      (es.foldr (fun p acc => do
        let rest ← acc
        let v ← deepRead h fuel p.2
        pure ((p.1, v) :: rest)) (some [])).map .dict
    | none => none

/-- Method get_all (context.py 30-33) on the heap: read the entries of the data
dict and allocate a new dict object with the same entry list (a shallow copy). -/
def getAllH (h : Heap) (ctxAddr : Nat) : Option (Nat × Heap) :=
  match hget h ctxAddr with
  | some (.pdict es) => some (halloc h (.pdict es))
  | _ => none

/-- Method get (context.py 20-23) on the heap, observed through deepRead: the
value currently reachable from the stored reference of one key. -/
def ctxGetH (h : Heap) (ctxAddr : Nat) (key : String) (fuel : Nat) : Option Value :=
  match hget h ctxAddr with
  | some (.pdict es) =>
    match es.lookup key with
    | some a => deepRead h fuel a
    | none => some .vnone
  | _ => none

/-! ### Concrete fixtures

Small concrete workflows, behaviors and heaps on which the general theorems are
instantiated; they mirror the flows of the repository's own tests (a two-step
A→B chain, a three-step chain, a three-cycle, a one-shot slack trigger followed
by an action, a reactive trigger, and a nested context value). -/

/-- External code that always succeeds. -/
def behOk : Behavior where
  createComp := fun _ _ => .ok ()
  runAction := fun _ _ _ => .ok [("success", .bool true), ("output", .str "action_output")]
  runEvent := fun _ _ _ => .ok [("success", .bool true), ("event_data", .str "event_output")]

/-- External code whose action raises for step B (a fault before a result). -/
def behRaiseB : Behavior where
  createComp := fun _ _ => .ok ()
  runAction := fun cid _ _ =>
    if cid = "B" then .error "Action Failed"
    else .ok [("success", .bool true), ("output", .str "action_output")]
  runEvent := fun _ _ _ => .ok [("success", .bool true), ("event_data", .str "event_output")]

/-- External code whose events run the slack receive path with a configured
socket, no callback and no arriving message. -/
def behSlackTimeout : Behavior where
  createComp := fun _ _ => .ok ()
  runAction := fun _ _ _ => .ok [("success", .bool true), ("output", .str "action_output")]
  runEvent := fun _ cfg _ =>
    match slackReceiveExecute cfg true false none with
    | some r => r
    | none => .error "blocked"

/-- Two steps: B consumes the alias out_A that A produces. -/
def cmpsPair : List (String × StepConfig) :=
  [("A", { action_type := some "mock", output_mapping := [("out_A", "out_A")] }),
   ("B", { action_type := some "mock",
           config := [("input", .str "\x7b\x7bout_A\x7d\x7d")] })]

/-- The two-step workflow built from cmpsPair. -/
def wfPair : Workflow :=
  { name := "pair", components := cmpsPair,
    dependencies := buildDependencyGraph cmpsPair }

/-- Three steps in a dependency chain A→B→C. -/
def cmpsChain : List (String × StepConfig) :=
  [("A", { action_type := some "m", output_mapping := [("out_A", "out_A")] }),
   ("B", { action_type := some "m",
           config := [("input", .str "\x7b\x7bout_A\x7d\x7d")],
           output_mapping := [("out_B", "out_B")] }),
   ("C", { action_type := some "m",
           config := [("input", .str "\x7b\x7bout_B\x7d\x7d")] })]

/-- Three steps in a dependency cycle A→B→C→A. -/
def cmpsCycle : List (String × StepConfig) :=
  [("A", { action_type := some "m",
           config := [("input", .str "\x7b\x7bout_C\x7d\x7d")],
           output_mapping := [("out_A", "out_A")] }),
   ("B", { action_type := some "m",
           config := [("input", .str "\x7b\x7bout_A\x7d\x7d")],
           output_mapping := [("out_B", "out_B")] }),
   ("C", { action_type := some "m",
           config := [("input", .str "\x7b\x7bout_B\x7d\x7d")],
           output_mapping := [("out_C", "out_C")] })]

/-- A one-shot slack trigger (finite timeout) followed by one action. -/
def cmpsOneShot : List (String × StepConfig) :=
  [("T", { event_type := some "slack.receive_message", is_trigger := true,
           config := [("timeout", .int 1), ("channel", .str "#general")] }),
   ("A", { action_type := some "m" })]

/-- The one-shot workflow built from cmpsOneShot. -/
def wfOneShot : Workflow :=
  { name := "oneshot", components := cmpsOneShot,
    dependencies := buildDependencyGraph cmpsOneShot }

/-- A persistent slack trigger (no timeout key, default -1) and one action. -/
def cmpsReactive : List (String × StepConfig) :=
  [("T", { event_type := some "slack.receive_message", is_trigger := true,
           config := [("channel", .str "#general")] }),
   ("A", { action_type := some "m" })]

/-- The reactive workflow built from cmpsReactive. -/
def wfReactive : Workflow :=
  { name := "reactive", components := cmpsReactive,
    dependencies := buildDependencyGraph cmpsReactive }

/-- Producer A exports two aliases x and y; consumer B references both. -/
def cmpsAliases : List (String × StepConfig) :=
  [("A", { action_type := some "m",
           output_mapping := [("k1", "x"), ("k2", "y")] }),
   ("B", { action_type := some "m",
           config := [("input", .str "\x7b\x7bx\x7d\x7d \x7b\x7by\x7d\x7d")] })]

/-- The same pair with the alias x removed from A's output mapping. -/
def cmpsAliasesPruned : List (String × StepConfig) :=
  [("A", { action_type := some "m", output_mapping := [("k2", "y")] }),
   ("B", { action_type := some "m",
           config := [("input", .str "\x7b\x7bx\x7d\x7d \x7b\x7by\x7d\x7d")] })]

/-- A context whose data dict (address 0) binds key user to a nested dict
object (address 1) holding a string (address 2). -/
def heapNested : Heap :=
  { cells := [(0, .pdict [("user", 1)]), (1, .pdict [("name", 2)]),
              (2, .prim (.str "Alice"))],
    next := 3 }

/-- The heap after get_all on heapNested: the snapshot dict lives at address 3
and shares the reference to the nested object at address 1. -/
def heapSnap : Heap :=
  { cells := heapNested.cells ++ [(3, .pdict [("user", 1)])], next := 4 }

/-! ### Specification-side definitions used by the proofs -/

/-- Condition under which one configuration value of step `cid` makes the
analyzer record an edge to step `y`: the value is a string containing both
brace pairs, one of its scanned placeholders lies in the output-alias values of
an entry `q` of the component map with `q.1 ≠ cid`, and `y` is that entry. -/
def ValueTriggers (components : List (String × StepConfig)) (cid : String)
    (v : Value) (y : String) : Prop :=
  ∃ s, v = Value.str s ∧ (strContains s phOpen && strContains s phClose) = true ∧
    ∃ ph ∈ placeholders s, ∃ q ∈ components,
      q.1 ≠ cid ∧ ph ∈ q.2.output_mapping.map Prod.snd ∧ y = q.1

/-- Specification of one edge of the built dependency graph. -/
def EdgeSpec (components : List (String × StepConfig)) (x y : String) : Prop :=
  ∃ p ∈ components, p.1 = x ∧ ∃ kv ∈ p.2.config, ValueTriggers components p.1 kv.2 y

/-- Keys of a built graph stay duplicate free and inside the allowed key pool.
The property is preserved by every depAdd with a key from the pool. -/
def GraphShape (pool : List String) (g : List (String × List String)) : Prop :=
  ((g.map Prod.fst).Nodup ∧ ∀ k ∈ g.map Prod.fst, k ∈ pool) ∧
    (∀ x, (depsOf g x).Nodup) ∧ ∀ p ∈ g, p.2 ≠ []

/-- Loop invariant of Kahn's algorithm, for dependency function `d` over the
step ids `ids`: the emitted prefix is duplicate free and dependency closed in
order, the queue holds exactly-once ready steps, the in-degree table counts the
dependencies not yet emitted, and every unseen step still has an unemitted
dependency. -/
structure KInv (ids : List String) (d : String → List String) (queue : List String)
    (f : String → Int) (result : List String) : Prop where
  result_nodup : result.Nodup
  queue_nodup : queue.Nodup
  disj : ∀ x ∈ queue, x ∉ result
  result_sub : ∀ x ∈ result, x ∈ ids
  queue_sub : ∀ x ∈ queue, x ∈ ids
  ready : ∀ x ∈ queue, ∀ y ∈ d x, y ∈ result
  ordered : ∀ (i : Nat) (z : String), result[i]? = some z → ∀ y ∈ d z, y ∈ result.take i
  degrees : ∀ x, f x = (((d x).filter (fun y => decide (y ∉ result))).length : Int)
  blocked : ∀ x ∈ ids, x ∉ result → x ∉ queue → ∃ y ∈ d x, y ∉ result

/-- The scheduler run of _topological_sort, as invoked by execute. -/
def kahnRun (components : List (String × StepConfig))
    (g : List (String × List String)) : List String :=
  kahnLoop g (components.map Prod.fst).length
    ((components.map Prod.fst).filter (fun i => (depsOf g i).isEmpty))
    (fun x => ((depsOf g x).length : Int)) []

/-- State carried out of one component execution, for either outcome. -/
def outState : Except (String × RunState) (Dict × RunState) → RunState
  | .error (_, st) => st
  | .ok (_, st) => st

/-- Behaviors whose external code never raises and always reports success. -/
structure AllOk (beh : Behavior) : Prop where
  create : ∀ cid cfg, beh.createComp cid cfg = Except.ok ()
  action : ∀ cid cfgd ctx, ∃ r, beh.runAction cid cfgd ctx = Except.ok r ∧
    truthy (dgetD r "success" (.bool false)) = true
  event : ∀ cid cfgd ctx, ∃ r, beh.runEvent cid cfgd ctx = Except.ok r ∧
    truthy (dgetD r "success" (.bool false)) = true

/-- Predicate selecting the trigger steps of the order (the classification pass
executes exactly the finite-timeout ones). -/
def isTrigStep (components : List (String × StepConfig)) (cid : String) : Bool :=
  (stepCfg components cid).is_trigger

/-- The result and state of the one-shot trigger step of cmpsOneShot under
behSlackTimeout (the slack event times out, the engine marks the listener). -/
def rOneShot : Dict :=
  dset (slackTimeoutResult (.str "#general") (.int 1)) "persistent_listener" (.bool true)

/-- The run state after the one-shot trigger step of cmpsOneShot. -/
def stOneShot : RunState :=
  { insts := [⟨0, "T", true⟩], nextId := 1, trace := ["T"] }

/-! ## Lemmas about resolve_placeholders and the lock

With the lock held, the substitution callback never returns, so re.sub (and
with it resolve_placeholders) returns exactly when the scan finds no match. -/

theorem replaceCallback_locked {c : Ctx} (hc : c.locked = true) (g : String) :
    replaceCallback c g = none := by
  simp [replaceCallback, ctxGet, hc]

theorem rsubFuel_no_ph {c : Ctx} :
    ∀ fuel l, findPHFuel fuel l = [] → rsubFuel c fuel l = some l := by
  intro fuel
  induction fuel with
  | zero => intro l _; rfl
  | succ n ih =>
    intro l h
    cases l with
    | nil => rfl
    | cons ch cs =>
      rw [findPHFuel] at h
      rw [rsubFuel]
      cases hm : matchPH (ch :: cs) with
      | some gr =>
        rcases gr with ⟨g, rest⟩
        rw [hm] at h
        exact absurd h (List.cons_ne_nil _ _)
      | none =>
        rw [hm] at h
        have h2 : findPHFuel n cs = [] := h
        show (do
          let tail ← rsubFuel c n cs
          pure (ch :: tail)) = some (ch :: cs)
        rw [ih cs h2]
        rfl

theorem rsubFuel_ph {c : Ctx} (hc : c.locked = true) :
    ∀ fuel l, findPHFuel fuel l ≠ [] → rsubFuel c fuel l = none := by
  intro fuel
  induction fuel with
  | zero =>
    intro l h
    cases l with
    | nil => exact absurd rfl h
    | cons a as => exact absurd rfl h
  | succ n ih =>
    intro l h
    cases l with
    | nil => exact absurd (show findPHFuel (n + 1) [] = [] from rfl) h
    | cons ch cs =>
      rw [findPHFuel] at h
      rw [rsubFuel]
      cases hm : matchPH (ch :: cs) with
      | some gr =>
        rcases gr with ⟨g, rest⟩
        show (do
          let rep ← replaceCallback c (String.mk g)
          let tail ← rsubFuel c n rest
          pure (rep.toList ++ tail)) = none
        rw [replaceCallback_locked hc]
        rfl
      | none =>
        rw [hm] at h
        have h2 : findPHFuel n cs ≠ [] := h
        show (do
          let tail ← rsubFuel c n cs
          pure (ch :: tail)) = none
        rw [ih cs h2]
        rfl

/-- Behavior of resolve_placeholders from a free-lock state: the identity when
the text has no placeholder token, and a self-deadlock (none) as soon as the
scan finds one, because the callback re-acquires the already-held lock. -/
theorem resolvePlaceholders_spec (c : Ctx) (hc : c.locked = false) (text : String) :
    resolvePlaceholders c text =
      if placeholders text = [] then some text else none := by
  rw [resolvePlaceholders, hc]
  simp only [Bool.false_eq_true, if_false]
  by_cases h : placeholders text = []
  · rw [if_pos h, rsubFuel_no_ph _ _ h]
    rfl
  · rw [if_neg h, rsubFuel_ph (c := { c with locked := true }) rfl _ _ h]
    rfl

mutual

theorem resolveConfigEntries_no_ph (c : Ctx) (hc : c.locked = false) :
    ∀ config, entriesHavePH config = false → resolveConfigEntries c config = some config
  | [], _ => rfl
  | (k, v) :: rest, h => by
    rw [entriesHavePH, Bool.or_eq_false_iff] at h
    rw [resolveConfigEntries, resolveConfigValue_no_ph c hc v h.1,
      resolveConfigEntries_no_ph c hc rest h.2]
    rfl

theorem resolveConfigValue_no_ph (c : Ctx) (hc : c.locked = false) :
    ∀ v, valueHasPH v = false → resolveConfigValue c v = some v
  | .vnone, _ => rfl
  | .int _, _ => rfl
  | .bool _, _ => rfl
  | .str s, h => by
    rw [valueHasPH] at h
    simp [List.isEmpty_iff] at h
    rw [resolveConfigValue, resolvePlaceholders_spec c hc s, if_pos h]
    rfl
  | .dict xs, h => by
    rw [valueHasPH] at h
    rw [resolveConfigValue, resolveConfigEntries_no_ph c hc xs h]
    rfl
  | .list xs, h => by
    rw [valueHasPH] at h
    rw [resolveConfigValue, resolveConfigItems_no_ph c hc xs h]
    rfl

theorem resolveConfigItem_no_ph (c : Ctx) (hc : c.locked = false) :
    ∀ v, strItemHasPH v = false → resolveConfigItem c v = some v
  | .vnone, _ => rfl
  | .int _, _ => rfl
  | .bool _, _ => rfl
  | .list _, _ => rfl
  | .dict _, _ => rfl
  | .str s, h => by
    rw [strItemHasPH] at h
    simp [List.isEmpty_iff] at h
    rw [resolveConfigItem, resolvePlaceholders_spec c hc s, if_pos h]
    rfl

theorem resolveConfigItems_no_ph (c : Ctx) (hc : c.locked = false) :
    ∀ items, itemsHavePH items = false → resolveConfigItems c items = some items
  | [], _ => rfl
  | v :: rest, h => by
    rw [itemsHavePH, Bool.or_eq_false_iff] at h
    rw [resolveConfigItems, resolveConfigItem_no_ph c hc v h.1,
      resolveConfigItems_no_ph c hc rest h.2]
    rfl

end

mutual

theorem resolveConfigEntries_ph (c : Ctx) (hc : c.locked = false) :
    ∀ config, entriesHavePH config = true → resolveConfigEntries c config = none
  | (k, v) :: rest, h => by
    rw [entriesHavePH] at h
    rw [resolveConfigEntries]
    cases hv : valueHasPH v with
    | true =>
      rw [resolveConfigValue_ph c hc v hv]
      rfl
    | false =>
      rw [hv] at h
      simp only [Bool.false_or] at h
      rw [resolveConfigValue_no_ph c hc v hv, resolveConfigEntries_ph c hc rest h]
      rfl

theorem resolveConfigValue_ph (c : Ctx) (hc : c.locked = false) :
    ∀ v, valueHasPH v = true → resolveConfigValue c v = none
  | .str s, h => by
    rw [valueHasPH] at h
    simp [List.isEmpty_eq_false] at h
    rw [resolveConfigValue, resolvePlaceholders_spec c hc s, if_neg h]
    rfl
  | .dict xs, h => by
    rw [valueHasPH] at h
    rw [resolveConfigValue, resolveConfigEntries_ph c hc xs h]
    rfl
  | .list xs, h => by
    rw [valueHasPH] at h
    rw [resolveConfigValue, resolveConfigItems_ph c hc xs h]
    rfl

theorem resolveConfigItem_ph (c : Ctx) (hc : c.locked = false) :
    ∀ v, strItemHasPH v = true → resolveConfigItem c v = none
  | .str s, h => by
    rw [strItemHasPH] at h
    simp [List.isEmpty_eq_false] at h
    rw [resolveConfigItem, resolvePlaceholders_spec c hc s, if_neg h]
    rfl

theorem resolveConfigItems_ph (c : Ctx) (hc : c.locked = false) :
    ∀ items, itemsHavePH items = true → resolveConfigItems c items = none
  | v :: rest, h => by
    rw [itemsHavePH] at h
    rw [resolveConfigItems]
    cases hv : strItemHasPH v with
    | true =>
      rw [resolveConfigItem_ph c hc v hv]
      rfl
    | false =>
      rw [hv] at h
      simp only [Bool.false_or] at h
      rw [resolveConfigItem_no_ph c hc v hv, resolveConfigItems_ph c hc rest h]
      rfl

end

/-! ## Lemmas about association lists -/

theorem lookup_cons_ite {β : Type} (a k : String) (v : β) (es : List (String × β)) :
    List.lookup a ((k, v) :: es) = if a = k then some v else List.lookup a es := by
  rw [List.lookup_cons]
  by_cases h : a = k
  · subst h
    simp
  · rw [if_neg h, beq_false_of_ne h]

theorem lookup_nil_str {β : Type} (a : String) : List.lookup a ([] : List (String × β)) = none :=
  rfl

theorem lookup_isSome_iff {β : Type} (a : String) :
    ∀ l : List (String × β), (List.lookup a l).isSome = true ↔ a ∈ l.map Prod.fst
  | [] => by
    rw [lookup_nil_str]
    simp
  | (k, v) :: es => by
    rw [lookup_cons_ite]
    by_cases h : a = k
    · simp [h]
    · simp [h, lookup_isSome_iff a es]

theorem lookup_eq_none_iff {β : Type} (a : String) (l : List (String × β)) :
    List.lookup a l = none ↔ a ∉ l.map Prod.fst := by
  rw [← lookup_isSome_iff a l]
  cases List.lookup a l <;> simp

/-! ## Lemmas about the dependency graph construction -/

theorem mem_addToSet (y : String) (s : List String) (x : String) :
    y ∈ addToSet s x ↔ y ∈ s ∨ y = x := by
  rw [addToSet]
  by_cases h : x ∈ s
  · rw [if_pos h]
    constructor
    · exact fun hy => Or.inl hy
    · rintro (hy | rfl) <;> assumption
  · rw [if_neg h]
    simp

theorem nodup_addToSet (s : List String) (x : String) (h : s.Nodup) :
    (addToSet s x).Nodup := by
  rw [addToSet]
  by_cases hx : x ∈ s
  · rwa [if_pos hx]
  · rw [if_neg hx, List.nodup_append]
    refine ⟨h, List.nodup_singleton x, ?_⟩
    intro a ha hb
    rw [List.mem_singleton] at hb
    subst hb
    exact hx ha

theorem addToSet_ne_nil (s : List String) (x : String) : addToSet s x ≠ [] := by
  rw [addToSet]
  by_cases hx : x ∈ s
  · rw [if_pos hx]
    exact List.ne_nil_of_mem hx
  · rw [if_neg hx]
    simp

theorem lookup_map_update (c o : String) :
    ∀ (g : List (String × List String)) (x : String),
      (g.map (fun p => if p.1 = c then (c, addToSet p.2 o) else p)).lookup x =
        if x = c then (g.lookup c).map (fun v => addToSet v o) else g.lookup x
  | [], x => by
    by_cases h : x = c <;> simp [h, lookup_nil_str]
  | (k, v) :: rest, x => by
    have hrec := lookup_map_update c o rest x
    rw [List.map_cons]
    by_cases hk : k = c
    · subst hk
      have hhead : (if ((k : String), v).1 = k then ((k : String), addToSet ((k : String), v).2 o) else (k, v))
          = (k, addToSet v o) := by
        simp
      rw [hhead, lookup_cons_ite, lookup_cons_ite]
      by_cases hx : x = k
      · rw [if_pos hx, if_pos hx]
        simp
      · rw [if_neg hx, if_neg hx, hrec, if_neg hx, lookup_cons_ite, if_neg hx]
    · have hhead : (if ((k : String), v).1 = c then ((c : String), addToSet ((k : String), v).2 o) else (k, v))
          = (k, v) := by
        simp [hk]
      rw [hhead, lookup_cons_ite, lookup_cons_ite]
      by_cases hx : x = k
      · rw [if_pos hx, if_neg (show ¬c = k from fun h => hk h.symm),
          if_neg (show ¬x = c from fun h => hk (hx.symm.trans h)), lookup_cons_ite, if_pos hx]
      · rw [if_neg hx, hrec, if_neg (show ¬c = k from fun h => hk h.symm),
          lookup_cons_ite, if_neg hx]

theorem depsOf_nil (x : String) : depsOf [] x = [] := rfl

theorem depsOf_depAdd (g : List (String × List String)) (c o x : String) :
    depsOf (depAdd g c o) x =
      if x = c then addToSet (depsOf g c) o else depsOf g x := by
  rw [depAdd]
  by_cases hs : (g.lookup c).isSome
  · rw [if_pos hs]
    rw [depsOf, lookup_map_update c o g x]
    rcases Option.isSome_iff_exists.mp hs with ⟨v, hv⟩
    by_cases hx : x = c
    · rw [if_pos hx, if_pos hx, hv]
      simp [depsOf, hv]
    · rw [if_neg hx, if_neg hx]
      rfl
  · rw [if_neg hs]
    have hnone : g.lookup c = none := by
      cases h : g.lookup c
      · rfl
      · rw [h] at hs; simp at hs
    rw [depsOf, List.lookup_append, lookup_cons_ite]
    by_cases hx : x = c
    · subst hx
      rw [hnone, if_pos rfl, if_pos rfl]
      simp [depsOf, hnone, addToSet]
    · rw [if_neg hx, if_neg hx, lookup_nil_str]
      rw [Option.or_none]
      rfl

theorem keys_depAdd (g : List (String × List String)) (c o : String) :
    (depAdd g c o).map Prod.fst =
      if (g.lookup c).isSome then g.map Prod.fst else g.map Prod.fst ++ [c] := by
  rw [depAdd]
  by_cases hs : (g.lookup c).isSome
  · rw [if_pos hs, if_pos hs, List.map_map]
    apply List.map_congr_left
    intro p _
    by_cases hp : p.1 = c
    · simp [hp]
    · simp [hp]
  · rw [if_neg hs, if_neg hs]
    simp

/-! ## Characterization of the inferred dependency edges -/


theorem mem_depAdd_iff (g : List (String × List String)) (c o x y : String) :
    y ∈ depsOf (depAdd g c o) x ↔ y ∈ depsOf g x ∨ (x = c ∧ y = o) := by
  rw [depsOf_depAdd]
  by_cases hx : x = c
  · subst hx
    rw [if_pos rfl, mem_addToSet]
    tauto
  · rw [if_neg hx]
    tauto

theorem mem_scanProducers_iff (components : List (String × StepConfig))
    (cid ph : String) :
    ∀ (l : List (String × StepConfig)) (g : List (String × List String)) (x y : String),
      y ∈ depsOf (l.foldl (fun g q =>
          if q.1 ≠ cid ∧ ph ∈ q.2.output_mapping.map Prod.snd then depAdd g cid q.1
          else g) g) x ↔
        y ∈ depsOf g x ∨
          (x = cid ∧ ∃ q ∈ l, q.1 ≠ cid ∧ ph ∈ q.2.output_mapping.map Prod.snd ∧ y = q.1)
  | [], g, x, y => by simp
  | q :: rest, g, x, y => by
    rw [List.foldl_cons]
    rw [mem_scanProducers_iff components cid ph rest _ x y]
    by_cases hq : q.1 ≠ cid ∧ ph ∈ q.2.output_mapping.map Prod.snd
    · rw [if_pos hq, mem_depAdd_iff]
      constructor
      · rintro ((h | ⟨hx, hy⟩) | ⟨hx, q2, hq2, h2⟩)
        · exact Or.inl h
        · exact Or.inr ⟨hx, q, List.mem_cons_self q rest, hq.1, hq.2, hy⟩
        · exact Or.inr ⟨hx, q2, List.mem_cons_of_mem q hq2, h2⟩
      · rintro (h | ⟨hx, q2, hq2, hne, hmem, hy⟩)
        · exact Or.inl (Or.inl h)
        · rcases List.mem_cons.mp hq2 with rfl | hq2
          · exact Or.inl (Or.inr ⟨hx, hy⟩)
          · exact Or.inr ⟨hx, q2, hq2, hne, hmem, hy⟩
    · rw [if_neg hq]
      constructor
      · rintro (h | ⟨hx, q2, hq2, h2⟩)
        · exact Or.inl h
        · exact Or.inr ⟨hx, q2, List.mem_cons_of_mem q hq2, h2⟩
      · rintro (h | ⟨hx, q2, hq2, hne, hmem, hy⟩)
        · exact Or.inl h
        · rcases List.mem_cons.mp hq2 with rfl | hq2
          · exact absurd ⟨hne, hmem⟩ hq
          · exact Or.inr ⟨hx, q2, hq2, hne, hmem, hy⟩

theorem mem_scanProducers_iff' (components : List (String × StepConfig))
    (cid ph : String) (g : List (String × List String)) (x y : String) :
    y ∈ depsOf (scanProducers components cid ph g) x ↔
      y ∈ depsOf g x ∨
        (x = cid ∧ ∃ q ∈ components, q.1 ≠ cid ∧ ph ∈ q.2.output_mapping.map Prod.snd ∧ y = q.1) :=
  mem_scanProducers_iff components cid ph components g x y

theorem mem_scanPHFold_iff (components : List (String × StepConfig)) (cid : String) :
    ∀ (phs : List String) (g : List (String × List String)) (x y : String),
      y ∈ depsOf (phs.foldl (fun g ph => scanProducers components cid ph g) g) x ↔
        y ∈ depsOf g x ∨
          (x = cid ∧ ∃ ph ∈ phs, ∃ q ∈ components,
            q.1 ≠ cid ∧ ph ∈ q.2.output_mapping.map Prod.snd ∧ y = q.1)
  | [], g, x, y => by simp
  | ph :: rest, g, x, y => by
    rw [List.foldl_cons]
    rw [mem_scanPHFold_iff components cid rest _ x y]
    rw [mem_scanProducers_iff' components cid ph g x y]
    constructor
    · rintro ((h | ⟨hx, hq⟩) | ⟨hx, ph2, hph2, hq⟩)
      · exact Or.inl h
      · exact Or.inr ⟨hx, ph, List.mem_cons_self ph rest, hq⟩
      · exact Or.inr ⟨hx, ph2, List.mem_cons_of_mem ph hph2, hq⟩
    · rintro (h | ⟨hx, ph2, hph2, hq⟩)
      · exact Or.inl (Or.inl h)
      · rcases List.mem_cons.mp hph2 with rfl | hph2
        · exact Or.inl (Or.inr ⟨hx, hq⟩)
        · exact Or.inr ⟨hx, ph2, hph2, hq⟩

theorem mem_scanValue_iff (components : List (String × StepConfig)) (cid : String)
    (g : List (String × List String)) (v : Value) (x y : String) :
    y ∈ depsOf (scanValue components cid g v) x ↔
      y ∈ depsOf g x ∨ (x = cid ∧ ValueTriggers components cid v y) := by
  cases v with
  | str s =>
    rw [scanValue]
    by_cases hc : (strContains s phOpen && strContains s phClose) = true
    · rw [if_pos hc, mem_scanPHFold_iff components cid (placeholders s) g x y]
      constructor
      · rintro (h | ⟨hx, hq⟩)
        · exact Or.inl h
        · exact Or.inr ⟨hx, s, rfl, hc, hq⟩
      · rintro (h | ⟨hx, s2, hs2, hc2, hq⟩)
        · exact Or.inl h
        · cases hs2
          exact Or.inr ⟨hx, hq⟩
    · rw [if_neg hc]
      constructor
      · exact fun h => Or.inl h
      · rintro (h | ⟨hx, s2, hs2, hc2, hq⟩)
        · exact h
        · cases hs2
          exact absurd hc2 hc
  | vnone =>
    constructor
    · exact fun h => Or.inl h
    · rintro (h | ⟨hx, s2, hs2, hq⟩)
      · exact h
      · cases hs2
  | int n =>
    constructor
    · exact fun h => Or.inl h
    · rintro (h | ⟨hx, s2, hs2, hq⟩)
      · exact h
      · cases hs2
  | bool b =>
    constructor
    · exact fun h => Or.inl h
    · rintro (h | ⟨hx, s2, hs2, hq⟩)
      · exact h
      · cases hs2
  | list xs =>
    constructor
    · exact fun h => Or.inl h
    · rintro (h | ⟨hx, s2, hs2, hq⟩)
      · exact h
      · cases hs2
  | dict xs =>
    constructor
    · exact fun h => Or.inl h
    · rintro (h | ⟨hx, s2, hs2, hq⟩)
      · exact h
      · cases hs2

theorem mem_configFold_iff (components : List (String × StepConfig)) (cid : String) :
    ∀ (config : List (String × Value)) (g : List (String × List String)) (x y : String),
      y ∈ depsOf (config.foldl (fun g kv => scanValue components cid g kv.2) g) x ↔
        y ∈ depsOf g x ∨
          (x = cid ∧ ∃ kv ∈ config, ValueTriggers components cid kv.2 y)
  | [], g, x, y => by simp
  | kv :: rest, g, x, y => by
    rw [List.foldl_cons]
    rw [mem_configFold_iff components cid rest _ x y]
    rw [mem_scanValue_iff components cid g kv.2 x y]
    constructor
    · rintro ((h | ⟨hx, hv⟩) | ⟨hx, kv2, hkv2, hv⟩)
      · exact Or.inl h
      · exact Or.inr ⟨hx, kv, List.mem_cons_self kv rest, hv⟩
      · exact Or.inr ⟨hx, kv2, List.mem_cons_of_mem kv hkv2, hv⟩
    · rintro (h | ⟨hx, kv2, hkv2, hv⟩)
      · exact Or.inl (Or.inl h)
      · rcases List.mem_cons.mp hkv2 with rfl | hkv2
        · exact Or.inl (Or.inr ⟨hx, hv⟩)
        · exact Or.inr ⟨hx, kv2, hkv2, hv⟩

theorem mem_outerFold_iff (components : List (String × StepConfig)) :
    ∀ (l : List (String × StepConfig)) (g : List (String × List String)) (x y : String),
      y ∈ depsOf (l.foldl (fun g p =>
          p.2.config.foldl (fun g kv => scanValue components p.1 g kv.2) g) g) x ↔
        y ∈ depsOf g x ∨
          ∃ p ∈ l, p.1 = x ∧ ∃ kv ∈ p.2.config, ValueTriggers components p.1 kv.2 y
  | [], g, x, y => by simp
  | p :: rest, g, x, y => by
    rw [List.foldl_cons]
    rw [mem_outerFold_iff components rest _ x y]
    rw [mem_configFold_iff components p.1 p.2.config g x y]
    constructor
    · rintro ((h | ⟨hx, hv⟩) | ⟨p2, hp2, hv⟩)
      · exact Or.inl h
      · exact Or.inr ⟨p, List.mem_cons_self p rest, hx.symm, hv⟩
      · exact Or.inr ⟨p2, List.mem_cons_of_mem p hp2, hv⟩
    · rintro (h | ⟨p2, hp2, hx, hv⟩)
      · exact Or.inl (Or.inl h)
      · rcases List.mem_cons.mp hp2 with rfl | hp2
        · exact Or.inl (Or.inr ⟨hx.symm, hv⟩)
        · exact Or.inr ⟨p2, hp2, hx, hv⟩

/-- Exact characterization of the analyzer output: `y` is recorded as a
dependency of `x` precisely when some entry of `x` has a string parameter with
both brace pairs one of whose placeholder tokens appears among the output-alias
values of a different step whose id is `y`.  In particular the analyzer never
fails, and an unmatched token contributes no edge. -/
theorem mem_buildDependencyGraph_iff (components : List (String × StepConfig))
    (x y : String) :
    y ∈ depsOf (buildDependencyGraph components) x ↔ EdgeSpec components x y := by
  rw [buildDependencyGraph, EdgeSpec]
  rw [mem_outerFold_iff components components [] x y]
  rw [depsOf_nil]
  simp

/-! ## Shape of the built dependency graph -/


theorem graphShape_nil (pool : List String) : GraphShape pool [] := by
  refine ⟨⟨List.nodup_nil, ?_⟩, ?_, ?_⟩
  · intro k hk
    simp at hk
  · intro x
    rw [depsOf_nil]
    exact List.nodup_nil
  · intro p hp
    simp at hp

theorem graphShape_depAdd {pool : List String} {g : List (String × List String)}
    (hg : GraphShape pool g) (c o : String) (hc : c ∈ pool) :
    GraphShape pool (depAdd g c o) := by
  obtain ⟨⟨hnd, hpool⟩, hvals, hne⟩ := hg
  refine ⟨⟨?_, ?_⟩, ?_, ?_⟩
  · rw [keys_depAdd]
    by_cases hs : (g.lookup c).isSome
    · rwa [if_pos hs]
    · rw [if_neg hs, List.nodup_append]
      refine ⟨hnd, List.nodup_singleton c, ?_⟩
      intro a ha hb
      rw [List.mem_singleton] at hb
      subst hb
      have : g.lookup a = none := by
        cases h : g.lookup a
        · rfl
        · rw [h] at hs; simp at hs
      exact (lookup_eq_none_iff a g).mp this ha
  · intro k hk
    rw [keys_depAdd] at hk
    by_cases hs : (g.lookup c).isSome
    · rw [if_pos hs] at hk
      exact hpool k hk
    · rw [if_neg hs] at hk
      rcases List.mem_append.mp hk with hk | hk
      · exact hpool k hk
      · rw [List.mem_singleton] at hk
        subst hk
        exact hc
  · intro x
    rw [depsOf_depAdd]
    by_cases hx : x = c
    · rw [if_pos hx]
      exact nodup_addToSet _ _ (hvals c)
    · rw [if_neg hx]
      exact hvals x
  · intro p hp
    rw [depAdd] at hp
    by_cases hs : (g.lookup c).isSome
    · rw [if_pos hs] at hp
      rcases List.mem_map.mp hp with ⟨q, hq, hpq⟩
      by_cases hq1 : q.1 = c
      · rw [if_pos hq1] at hpq
        subst hpq
        exact addToSet_ne_nil _ _
      · rw [if_neg hq1] at hpq
        subst hpq
        exact hne q hq
    · rw [if_neg hs] at hp
      rcases List.mem_append.mp hp with hp | hp
      · exact hne p hp
      · rw [List.mem_singleton] at hp
        subst hp
        simp

theorem graphShape_scanProducers {pool : List String} (components : List (String × StepConfig))
    (cid ph : String) (hc : cid ∈ pool) {g : List (String × List String)}
    (hg : GraphShape pool g) : GraphShape pool (scanProducers components cid ph g) := by
  rw [scanProducers]
  refine List.foldlRecOn components _ g hg ?_
  intro g2 hg2 q _
  by_cases hq : q.1 ≠ cid ∧ ph ∈ q.2.output_mapping.map Prod.snd
  · rw [if_pos hq]
    exact graphShape_depAdd hg2 cid q.1 hc
  · rwa [if_neg hq]

theorem graphShape_scanValue {pool : List String} (components : List (String × StepConfig))
    (cid : String) (hc : cid ∈ pool) {g : List (String × List String)}
    (hg : GraphShape pool g) (v : Value) : GraphShape pool (scanValue components cid g v) := by
  cases v with
  | str s =>
    rw [scanValue]
    by_cases hcond : (strContains s phOpen && strContains s phClose) = true
    · rw [if_pos hcond]
      refine List.foldlRecOn (placeholders s) _ g hg ?_
      intro g2 hg2 ph _
      exact graphShape_scanProducers components cid ph hc hg2
    · rwa [if_neg hcond]
  | vnone => exact hg
  | int n => exact hg
  | bool b => exact hg
  | list xs => exact hg
  | dict xs => exact hg

theorem graphShape_build (components : List (String × StepConfig)) :
    GraphShape (components.map Prod.fst) (buildDependencyGraph components) := by
  rw [buildDependencyGraph]
  refine List.foldlRecOn components _ [] (graphShape_nil _) ?_
  intro g hg p hp
  refine List.foldlRecOn p.2.config _ g hg ?_
  intro g2 hg2 kv _
  exact graphShape_scanValue components p.1 (List.mem_map_of_mem Prod.fst hp) hg2 kv.2

/-- Every step with a recorded dependency is a component id. -/
theorem edge_src_mem (components : List (String × StepConfig)) {x y : String}
    (h : y ∈ depsOf (buildDependencyGraph components) x) :
    x ∈ components.map Prod.fst := by
  rcases (mem_buildDependencyGraph_iff components x y).mp h with ⟨p, hp, hpx, _⟩
  subst hpx
  exact List.mem_map_of_mem Prod.fst hp

/-- Every recorded dependency target is a component id. -/
theorem edge_tgt_mem (components : List (String × StepConfig)) {x y : String}
    (h : y ∈ depsOf (buildDependencyGraph components) x) :
    y ∈ components.map Prod.fst := by
  rcases (mem_buildDependencyGraph_iff components x y).mp h with
    ⟨p, hp, hpx, kv, hkv, s, hs, hcond, ph, hph, q, hq, hne, hmem, hy⟩
  subst hy
  exact List.mem_map_of_mem Prod.fst hq

/-- The analyzer records no self dependency. -/
theorem edge_ne (components : List (String × StepConfig)) {x y : String}
    (h : y ∈ depsOf (buildDependencyGraph components) x) : y ≠ x := by
  rcases (mem_buildDependencyGraph_iff components x y).mp h with
    ⟨p, hp, hpx, kv, hkv, s, hs, hcond, ph, hph, q, hq, hne, hmem, hy⟩
  subst hy
  subst hpx
  exact hne

/-! ## Correctness of the scheduler (Kahn loop) -/

theorem lookup_of_mem_nodup {β : Type} :
    ∀ {l : List (String × β)}, (l.map Prod.fst).Nodup → ∀ {p : String × β}, p ∈ l →
      l.lookup p.1 = some p.2
  | [], _, _, hp => absurd hp (List.not_mem_nil _)
  | (a, b) :: rest, hnd, p, hp => by
    rw [List.map_cons, List.nodup_cons] at hnd
    rw [lookup_cons_ite]
    rcases List.mem_cons.mp hp with heq | hmem
    · subst heq
      rw [if_pos rfl]
    · have hne : p.1 ≠ a := by
        intro h
        apply hnd.1
        rw [← h]
        exact List.mem_map.mpr ⟨p, hmem, rfl⟩
      rw [if_neg hne]
      exact lookup_of_mem_nodup hnd.2 hmem

theorem mem_of_lookup_eq_some {β : Type} :
    ∀ {l : List (String × β)} {a : String} {b : β}, l.lookup a = some b → (a, b) ∈ l
  | [], a, b, h => by rw [lookup_nil_str] at h; cases h
  | (k, v) :: rest, a, b, h => by
    rw [lookup_cons_ite] at h
    by_cases hk : a = k
    · rw [if_pos hk] at h
      cases h
      subst hk
      exact List.mem_cons_self _ _
    · rw [if_neg hk] at h
      exact List.mem_cons_of_mem _ (mem_of_lookup_eq_some h)

theorem depsOf_mem_keys {deps : List (String × List String)} {x : String}
    (h : depsOf deps x ≠ []) : x ∈ deps.map Prod.fst := by
  rw [← lookup_isSome_iff]
  rw [depsOf] at h
  cases hl : deps.lookup x with
  | none =>
    rw [hl] at h
    exact absurd rfl h
  | some v => rfl

theorem processPop_fst_not (cur : String) :
    ∀ (l : List (String × List String)) (f : String → Int) (x : String),
      (¬ ∃ p ∈ l, p.1 = x ∧ cur ∈ p.2) → (processPop cur l f).1 x = f x
  | [], f, x, _ => rfl
  | (cid, ds) :: rest, f, x, h => by
    rw [processPop]
    have hrest : ¬ ∃ p ∈ rest, p.1 = x ∧ cur ∈ p.2 := by
      rintro ⟨p, hp, hpx, hpc⟩
      exact h ⟨p, List.mem_cons_of_mem _ hp, hpx, hpc⟩
    by_cases hcur : cur ∈ ds
    · rw [if_pos hcur]
      have hx : x ≠ cid := by
        intro hx
        exact h ⟨(cid, ds), List.mem_cons_self _ _, hx.symm, hcur⟩
      show (processPop cur rest fun y => if y = cid then f cid - 1 else f y).1 x = f x
      rw [processPop_fst_not cur rest _ x hrest]
      rw [if_neg hx]
    · rw [if_neg hcur]
      exact processPop_fst_not cur rest f x hrest

theorem processPop_fst_mem (cur : String) :
    ∀ (l : List (String × List String)) (f : String → Int) (x : String),
      (l.map Prod.fst).Nodup → (∃ p ∈ l, p.1 = x ∧ cur ∈ p.2) →
      (processPop cur l f).1 x = f x - 1
  | [], f, x, _, h => by simp at h
  | (cid, ds) :: rest, f, x, hnd, h => by
    rw [List.map_cons, List.nodup_cons] at hnd
    rw [processPop]
    rcases h with ⟨p, hp, hpx, hpc⟩
    rcases List.mem_cons.mp hp with heq | hp2
    · have hx : x = cid := by rw [← hpx, heq]
      have hds : cur ∈ ds := by
        have h2 : p.2 = ds := by rw [heq]
        rwa [h2] at hpc
      rw [if_pos hds]
      have hrest : ¬ ∃ q ∈ rest, q.1 = cid ∧ cur ∈ q.2 := by
        rintro ⟨q, hq, hqx, _⟩
        apply hnd.1
        rw [← hqx]
        exact List.mem_map.mpr ⟨q, hq, rfl⟩
      show (processPop cur rest fun y => if y = cid then f cid - 1 else f y).1 x = f x - 1
      rw [hx]
      rw [processPop_fst_not cur rest _ cid hrest]
      rw [if_pos rfl]
    · have hxrest : ∃ q ∈ rest, q.1 = x ∧ cur ∈ q.2 := ⟨p, hp2, hpx, hpc⟩
      have hxne : x ≠ cid := by
        intro hx
        apply hnd.1
        rw [← hx, ← hpx]
        exact List.mem_map.mpr ⟨p, hp2, rfl⟩
      by_cases hcur : cur ∈ ds
      · rw [if_pos hcur]
        show (processPop cur rest fun y => if y = cid then f cid - 1 else f y).1 x = f x - 1
        rw [processPop_fst_mem cur rest _ x hnd.2 hxrest]
        rw [if_neg hxne]
      · rw [if_neg hcur]
        exact processPop_fst_mem cur rest f x hnd.2 hxrest

theorem processPop_snd (cur : String) :
    ∀ (l : List (String × List String)) (f : String → Int),
      (l.map Prod.fst).Nodup →
      (processPop cur l f).2 =
        (l.filter (fun p => decide (cur ∈ p.2) && decide (f p.1 = 1))).map Prod.fst
  | [], f, _ => rfl
  | (cid, ds) :: rest, f, hnd => by
    rw [List.map_cons, List.nodup_cons] at hnd
    rw [processPop, List.filter_cons]
    by_cases hcur : cur ∈ ds
    · rw [if_pos hcur]
      show (if f cid - 1 = 0 then [cid] else []) ++
          (processPop cur rest fun y => if y = cid then f cid - 1 else f y).2 = _
      rw [processPop_snd cur rest _ hnd.2]
      have hfilter : rest.filter (fun p => decide (cur ∈ p.2) &&
          decide ((if p.1 = cid then f cid - 1 else f p.1) = 1)) =
          rest.filter (fun p => decide (cur ∈ p.2) && decide (f p.1 = 1)) := by
        apply List.filter_congr
        intro p hp
        have hne : p.1 ≠ cid := by
          intro h
          apply hnd.1
          rw [← h]
          exact List.mem_map.mpr ⟨p, hp, rfl⟩
        rw [if_neg hne]
      rw [hfilter]
      by_cases hdeg : f cid = 1
      · rw [if_pos (by omega)]
        have hcond : (decide (cur ∈ ((cid : String), ds).2) && decide (f ((cid : String), ds).1 = 1)) = true := by
          simp [hcur, hdeg]
        rw [if_pos hcond]
        rfl
      · rw [if_neg (by omega)]
        have hcond : ¬ (decide (cur ∈ ((cid : String), ds).2) && decide (f ((cid : String), ds).1 = 1)) = true := by
          simp [hcur, hdeg]
        rw [if_neg hcond]
        rfl
    · rw [if_neg hcur]
      rw [processPop_snd cur rest f hnd.2]
      have hcond : ¬ (decide (cur ∈ ((cid : String), ds).2) && decide (f ((cid : String), ds).1 = 1)) = true := by
        simp [hcur]
      rw [if_neg hcond]


theorem nodup_all_eq_length_le_one {l : List String} {c : String}
    (hnd : l.Nodup) (h : ∀ a ∈ l, a = c) : l.length ≤ 1 := by
  cases l with
  | nil => simp
  | cons a rest =>
    cases rest with
    | nil => simp
    | cons b rest2 =>
      have ha : a = c := h a (List.mem_cons_self _ _)
      have hb : b = c := h b (List.mem_cons_of_mem _ (List.mem_cons_self _ _))
      rw [List.nodup_cons] at hnd
      exfalso
      apply hnd.1
      rw [ha, ← hb]
      exact List.mem_cons_self b rest2

theorem filter_shift_of_not_mem (l result : List String) (cur : String) (h : cur ∉ l) :
    l.filter (fun y => decide (y ∉ result ++ [cur])) =
      l.filter (fun y => decide (y ∉ result)) := by
  apply List.filter_congr
  intro y hy
  have hne : y ≠ cur := fun he => h (he ▸ hy)
  simp [List.mem_append, hne]

theorem filter_shift_of_mem (l result : List String) (cur : String) (hnd : l.Nodup)
    (hl : cur ∈ l) (hr : cur ∉ result) :
    ((l.filter (fun y => decide (y ∉ result ++ [cur]))).length : Int) =
      ((l.filter (fun y => decide (y ∉ result))).length : Int) - 1 := by
  have h1 : l.filter (fun y => decide (y ∉ result ++ [cur])) =
      (l.filter (fun y => decide (y ∉ result))).filter (fun y => y != cur) := by
    rw [List.filter_filter]
    apply List.filter_congr
    intro y hy
    by_cases h1 : y ∈ result <;> by_cases h2 : y = cur <;>
      simp [h1, h2, List.mem_append]
  have hLnd : (l.filter (fun y => decide (y ∉ result))).Nodup := List.Nodup.filter _ hnd
  have hcurL : cur ∈ l.filter (fun y => decide (y ∉ result)) := by
    rw [List.mem_filter]
    exact ⟨hl, by simp [hr]⟩
  have h2 : (l.filter (fun y => decide (y ∉ result))).filter (fun y => y != cur) =
      (l.filter (fun y => decide (y ∉ result))).erase cur :=
    (List.Nodup.erase_eq_filter hLnd cur).symm
  have h3 := List.length_erase_of_mem hcurL
  have h4 : 1 ≤ (l.filter (fun y => decide (y ∉ result))).length :=
    List.length_pos.mpr (List.ne_nil_of_mem hcurL)
  rw [h1, h2, h3]
  omega

theorem kahn_step {deps : List (String × List String)} {ids : List String}
    (hknd : (deps.map Prod.fst).Nodup)
    (hksub : ∀ k ∈ deps.map Prod.fst, k ∈ ids)
    (hvnd : ∀ x, (depsOf deps x).Nodup)
    {cur : String} {queue : List String} {f : String → Int} {result : List String}
    (hinv : KInv ids (depsOf deps) (cur :: queue) f result) :
    KInv ids (depsOf deps) (queue ++ (processPop cur deps f).2)
      (processPop cur deps f).1 (result ++ [cur]) := by
  obtain ⟨hrnd, hqnd, hdisj, hrsub, hqsub, hready, hord, hdeg, hblocked⟩ := hinv
  have hcurq : cur ∉ queue := (List.nodup_cons.mp hqnd).1
  have hqnd2 : queue.Nodup := (List.nodup_cons.mp hqnd).2
  have hcurr : cur ∉ result := hdisj cur (List.mem_cons_self _ _)
  have hcurid : cur ∈ ids := hqsub cur (List.mem_cons_self _ _)
  have hreadycur : ∀ y ∈ depsOf deps cur, y ∈ result :=
    hready cur (List.mem_cons_self _ _)
  -- entry of the dependency map for a step with an edge to cur
  have hentry : ∀ x, cur ∈ depsOf deps x → (x, depsOf deps x) ∈ deps := by
    intro x hx
    have hne : depsOf deps x ≠ [] := List.ne_nil_of_mem hx
    have hk : x ∈ deps.map Prod.fst := depsOf_mem_keys hne
    rcases Option.isSome_iff_exists.mp ((lookup_isSome_iff x deps).mpr hk) with ⟨v, hv⟩
    have hvx : depsOf deps x = v := by rw [depsOf, hv]; rfl
    rw [hvx]
    exact mem_of_lookup_eq_some hv
  -- characterization of the new queue entries
  have hNmem : ∀ x, x ∈ (processPop cur deps f).2 ↔
      cur ∈ depsOf deps x ∧ f x = 1 := by
    intro x
    rw [processPop_snd cur deps f hknd]
    constructor
    · intro hx
      rcases List.mem_map.mp hx with ⟨p, hpf, hpx⟩
      rcases List.mem_filter.mp hpf with ⟨hp, hpred⟩
      have hpred2 : decide (cur ∈ p.2) = true ∧ decide (f p.1 = 1) = true := by
        simpa using hpred
      have hlk := lookup_of_mem_nodup hknd hp
      have hdx : depsOf deps p.1 = p.2 := by rw [depsOf, hlk]; rfl
      subst hpx
      rw [hdx]
      exact ⟨of_decide_eq_true hpred2.1, of_decide_eq_true hpred2.2⟩
    · rintro ⟨hcur2, hf1⟩
      have hp := hentry x hcur2
      refine List.mem_map.mpr ⟨(x, depsOf deps x), ?_, rfl⟩
      rw [List.mem_filter]
      exact ⟨hp, by simp [hcur2, hf1]⟩
  -- characterization of the new degree table
  have hf2 : ∀ x, (processPop cur deps f).1 x =
      if cur ∈ depsOf deps x then f x - 1 else f x := by
    intro x
    by_cases hcur2 : cur ∈ depsOf deps x
    · rw [if_pos hcur2]
      exact processPop_fst_mem cur deps f x hknd
        ⟨(x, depsOf deps x), hentry x hcur2, rfl, hcur2⟩
    · rw [if_neg hcur2]
      apply processPop_fst_not
      rintro ⟨p, hp, hpx, hpc⟩
      apply hcur2
      have hlk := lookup_of_mem_nodup hknd hp
      have hdx : depsOf deps p.1 = p.2 := by rw [depsOf, hlk]; rfl
      rw [← hpx, hdx]
      exact hpc
  -- steps already emitted have all their dependencies emitted
  have hclosed : ∀ z ∈ result, ∀ y ∈ depsOf deps z, y ∈ result := by
    intro z hz y hy
    rcases List.mem_iff_getElem?.mp hz with ⟨i, hi⟩
    exact List.take_subset i result (hord i z hi y hy)
  -- a queued or emitted step has degree zero, hence is not re-enqueued
  have hdeg0 : ∀ x, (∀ y ∈ depsOf deps x, y ∈ result) → f x = 0 := by
    intro x hx
    rw [hdeg x]
    have : (depsOf deps x).filter (fun y => decide (y ∉ result)) = [] := by
      rw [List.filter_eq_nil_iff]
      intro y hy
      simp [hx y hy]
    rw [this]
    rfl
  refine ⟨?_, ?_, ?_, ?_, ?_, ?_, ?_, ?_, ?_⟩
  · rw [List.nodup_append]
    refine ⟨hrnd, List.nodup_singleton cur, ?_⟩
    intro a ha hb
    rw [List.mem_singleton] at hb
    exact hcurr (hb ▸ ha)
  · rw [List.nodup_append]
    refine ⟨hqnd2, ?_, ?_⟩
    · refine List.Nodup.sublist ?_ hknd
      rw [processPop_snd cur deps f hknd]
      exact List.Sublist.map Prod.fst (List.filter_sublist deps)
    · intro a ha hb
      rcases (hNmem a).mp hb with ⟨hda, hfa⟩
      have h0 : f a = 0 := hdeg0 a (hready a (List.mem_cons_of_mem _ ha))
      omega
  · intro x hx
    rcases List.mem_append.mp hx with hx | hx
    · intro hmem
      rcases List.mem_append.mp hmem with hmem | hmem
      · exact hdisj x (List.mem_cons_of_mem _ hx) hmem
      · rw [List.mem_singleton] at hmem
        exact hcurq (hmem ▸ hx)
    · rcases (hNmem x).mp hx with ⟨hdx, hfx⟩
      intro hmem
      rcases List.mem_append.mp hmem with hmem | hmem
      · have h0 : f x = 0 := hdeg0 x (hclosed x hmem)
        omega
      · rw [List.mem_singleton] at hmem
        have h0 : f x = 0 := hdeg0 x (by
          intro y hy
          rw [hmem] at hy
          exact hreadycur y hy)
        omega
  · intro x hx
    rcases List.mem_append.mp hx with hx | hx
    · exact hrsub x hx
    · rw [List.mem_singleton] at hx
      rw [hx]
      exact hcurid
  · intro x hx
    rcases List.mem_append.mp hx with hx | hx
    · exact hqsub x (List.mem_cons_of_mem _ hx)
    · rcases (hNmem x).mp hx with ⟨hdx, _⟩
      exact hksub x (depsOf_mem_keys (List.ne_nil_of_mem hdx))
  · intro x hx y hy
    rcases List.mem_append.mp hx with hx | hx
    · exact List.mem_append_left _ (hready x (List.mem_cons_of_mem _ hx) y hy)
    · rcases (hNmem x).mp hx with ⟨hdx, hfx⟩
      by_cases hyr : y ∈ result
      · exact List.mem_append_left _ hyr
      · have hyf : y ∈ (depsOf deps x).filter (fun z => decide (z ∉ result)) := by
          rw [List.mem_filter]
          exact ⟨hy, by simp [hyr]⟩
        have hlen : ((depsOf deps x).filter (fun z => decide (z ∉ result))).length = 1 := by
          have := hdeg x
          omega
        rcases List.length_eq_one.mp hlen with ⟨a, ha⟩
        rw [ha, List.mem_singleton] at hyf
        have hcf : cur ∈ (depsOf deps x).filter (fun z => decide (z ∉ result)) := by
          rw [List.mem_filter]
          exact ⟨hdx, by simp [hcurr]⟩
        rw [ha, List.mem_singleton] at hcf
        rw [hyf, ← hcf]
        exact List.mem_append_right _ (List.mem_singleton.mpr rfl)
  · intro i z hi y hy
    by_cases hil : i < result.length
    · rw [List.getElem?_append_left hil] at hi
      rw [List.take_append_of_le_length (Nat.le_of_lt hil)]
      exact hord i z hi y hy
    · have hle : result.length ≤ i := Nat.le_of_not_lt hil
      rcases Nat.eq_or_lt_of_le hle with heq | hlt
      · rw [← heq] at hi
        rw [List.getElem?_concat_length] at hi
        cases hi
        rw [← heq, List.take_append_of_le_length (Nat.le_refl _), List.take_length]
        exact hreadycur y hy
      · rw [List.getElem?_eq_none] at hi
        · cases hi
        · rw [List.length_append, List.length_singleton]
          omega
  · intro x
    rw [hf2 x, hdeg x]
    by_cases hcur2 : cur ∈ depsOf deps x
    · rw [if_pos hcur2]
      rw [filter_shift_of_mem (depsOf deps x) result cur (hvnd x) hcur2 hcurr]
    · rw [if_neg hcur2]
      rw [filter_shift_of_not_mem (depsOf deps x) result cur hcur2]
  · intro x hxids hxr hxq
    have hxr0 : x ∉ result := fun h => hxr (List.mem_append_left _ h)
    have hxcur : x ≠ cur := by
      intro h
      exact hxr (List.mem_append_right _ (List.mem_singleton.mpr h))
    have hxq0 : x ∉ queue := fun h => hxq (List.mem_append_left _ h)
    have hxN : x ∉ (processPop cur deps f).2 := fun h => hxq (List.mem_append_right _ h)
    rcases hblocked x hxids hxr0 (by
      intro h
      rcases List.mem_cons.mp h with h | h
      · exact hxcur h
      · exact hxq0 h) with ⟨y, hyd, hyr⟩
    by_cases hyc : y = cur
    · have hydc : cur ∈ depsOf deps x := by
        rw [← hyc]
        exact hyd
      have hnot : ¬ (cur ∈ depsOf deps x ∧ f x = 1) := fun h => hxN ((hNmem x).mpr h)
      have hfx1 : f x ≠ 1 := fun h => hnot ⟨hydc, h⟩
      have hcf : cur ∈ (depsOf deps x).filter (fun z => decide (z ∉ result)) := by
        rw [List.mem_filter]
        exact ⟨hydc, by simp [hcurr]⟩
      have hlen1 : 1 ≤ ((depsOf deps x).filter (fun z => decide (z ∉ result))).length :=
        List.length_pos.mpr (List.ne_nil_of_mem hcf)
      have hlen2 : 2 ≤ ((depsOf deps x).filter (fun z => decide (z ∉ result))).length := by
        rcases Nat.eq_or_lt_of_le hlen1 with heq | hlt
        · exfalso
          apply hfx1
          rw [hdeg x, ← heq]
          exact Nat.cast_one
        · exact hlt
      have hy2 : ∃ y2 ∈ (depsOf deps x).filter (fun z => decide (z ∉ result)), y2 ≠ cur := by
        by_contra hno
        push_neg at hno
        have := nodup_all_eq_length_le_one
          (List.Nodup.filter _ (hvnd x)) hno
        omega
      rcases hy2 with ⟨y2, hy2f, hy2c⟩
      rcases List.mem_filter.mp hy2f with ⟨hy2d, hy2r⟩
      refine ⟨y2, hy2d, ?_⟩
      intro hmem
      rcases List.mem_append.mp hmem with hmem | hmem
      · exact (of_decide_eq_true hy2r) hmem
      · rw [List.mem_singleton] at hmem
        exact hy2c hmem
    · refine ⟨y, hyd, ?_⟩
      intro hmem
      rcases List.mem_append.mp hmem with hmem | hmem
      · exact hyr hmem
      · rw [List.mem_singleton] at hmem
        exact hyc hmem

theorem kahnLoop_props {deps : List (String × List String)} {ids : List String}
    (hknd : (deps.map Prod.fst).Nodup)
    (hksub : ∀ k ∈ deps.map Prod.fst, k ∈ ids)
    (hvnd : ∀ x, (depsOf deps x).Nodup) :
    ∀ (fuel : Nat) (queue : List String) (f : String → Int) (result : List String),
      KInv ids (depsOf deps) queue f result →
      ids.length = fuel + result.length →
      (kahnLoop deps fuel queue f result).Nodup ∧
      (∀ x ∈ kahnLoop deps fuel queue f result, x ∈ ids) ∧
      (∀ (i : Nat) (z : String), (kahnLoop deps fuel queue f result)[i]? = some z →
        ∀ y ∈ depsOf deps z, y ∈ (kahnLoop deps fuel queue f result).take i) ∧
      ((kahnLoop deps fuel queue f result).length = ids.length ∨
        ∀ x ∈ ids, x ∉ kahnLoop deps fuel queue f result →
          ∃ y ∈ depsOf deps x, y ∉ kahnLoop deps fuel queue f result)
  | 0, queue, f, result, hinv, hbud => by
    rw [kahnLoop]
    exact ⟨hinv.result_nodup, hinv.result_sub, hinv.ordered, Or.inl (by omega)⟩
  | fuel + 1, [], f, result, hinv, _ => by
    rw [kahnLoop]
    exact ⟨hinv.result_nodup, hinv.result_sub, hinv.ordered,
      Or.inr (fun x hx hxr => hinv.blocked x hx hxr (List.not_mem_nil x))⟩
  | fuel + 1, cur :: queue, f, result, hinv, hbud => by
    rw [kahnLoop]
    exact kahnLoop_props hknd hksub hvnd fuel _ _ _
      (kahn_step hknd hksub hvnd hinv) (by simp; omega)

theorem kahn_init {deps : List (String × List String)} {ids : List String}
    (hidnd : ids.Nodup) :
    KInv ids (depsOf deps) (ids.filter (fun i => (depsOf deps i).isEmpty))
      (fun x => ((depsOf deps x).length : Int)) [] := by
  refine ⟨List.nodup_nil, List.Nodup.filter _ hidnd, ?_, ?_, ?_, ?_, ?_, ?_, ?_⟩
  · intro x _
    exact List.not_mem_nil x
  · intro x hx
    exact absurd hx (List.not_mem_nil x)
  · intro x hx
    exact (List.mem_filter.mp hx).1
  · intro x hx y hy
    have he := (List.mem_filter.mp hx).2
    rw [List.isEmpty_iff] at he
    rw [he] at hy
    exact absurd hy (List.not_mem_nil y)
  · intro i z hi
    simp at hi
  · intro x
    have he : (depsOf deps x).filter (fun y => decide (y ∉ ([] : List String))) =
        depsOf deps x := by
      apply List.filter_eq_self.mpr
      intro a _
      simp
    rw [he]
  · intro x hx _ hq
    have hne : ¬ (depsOf deps x).isEmpty = true := by
      intro he
      exact hq (List.mem_filter.mpr ⟨hx, he⟩)
    cases hd : depsOf deps x with
    | nil =>
      rw [hd] at hne
      simp at hne
    | cons a as =>
      refine ⟨a, ?_, List.not_mem_nil a⟩
      exact List.mem_cons_self a as

theorem indexOf_lt_of_mem_take :
    ∀ (l : List String) (i : Nat) (a : String), a ∈ l.take i → List.indexOf a l < i
  | _, 0, a, h => by simp at h
  | [], _ + 1, a, h => by simp at h
  | b :: bs, i + 1, a, h => by
    rw [List.take_succ_cons] at h
    by_cases hab : a = b
    · rw [hab, List.indexOf_cons_self]
      omega
    · rcases List.mem_cons.mp h with heq | hmem
      · exact absurd heq hab
      · rw [List.indexOf_cons_ne bs (fun he => hab he.symm)]
        have := indexOf_lt_of_mem_take bs i a hmem
        omega

/-- In an order that is dependency closed in the forward direction, walking any
chain of dependencies strictly decreases the position. -/
theorem transGen_indexOf_lt {g : List (String × List String)} {rf : List String}
    (hall : ∀ x y, depEdge g x y → x ∈ rf ∧ y ∈ rf)
    (hord : ∀ (i : Nat) (z : String), rf[i]? = some z →
      ∀ y ∈ depsOf g z, y ∈ rf.take i)
    {a b : String} (h : Relation.TransGen (depEdge g) a b) :
    List.indexOf b rf < List.indexOf a rf := by
  have hstep : ∀ x y, depEdge g x y → List.indexOf y rf < List.indexOf x rf := by
    intro x y hxy
    have hx : x ∈ rf := (hall x y hxy).1
    have hlt : List.indexOf x rf < rf.length := List.indexOf_lt_length.mpr hx
    have hget : rf[List.indexOf x rf]? = some x := by
      rw [List.getElem?_eq_getElem hlt]
      exact congrArg some (List.indexOf_get hlt)
    have hy : y ∈ rf.take (List.indexOf x rf) := hord _ x hget y hxy
    exact indexOf_lt_of_mem_take rf _ y hy
  induction h with
  | single hedge => exact hstep _ _ hedge
  | tail _ hedge ih => exact lt_trans (hstep _ _ hedge) ih

/-- A nonempty set of steps each of which has a dependency inside the set
contains a dependency cycle (by pigeonhole on iterated choice). -/
theorem cycle_of_closed {g : List (String × List String)} {S : List String}
    (hne : S ≠ []) (hclosed : ∀ x ∈ S, ∃ y ∈ S, y ∈ depsOf g x) :
    ∃ x, Relation.TransGen (depEdge g) x x := by
  classical
  choose F hFS hFd using hclosed
  rcases List.exists_mem_of_ne_nil S hne with ⟨x0, hx0⟩
  let step : { z // z ∈ S } → { z // z ∈ S } := fun z => ⟨F z.1 z.2, hFS z.1 z.2⟩
  let seq : Nat → { z // z ∈ S } := fun n => step^[n] ⟨x0, hx0⟩
  have hchain : ∀ (z : { z // z ∈ S }) (k : Nat), 1 ≤ k →
      Relation.TransGen (depEdge g) z.1 ((step^[k]) z).1 := by
    intro z k
    induction k with
    | zero => omega
    | succ n ih =>
      intro _
      cases Nat.eq_or_lt_of_le (Nat.one_le_iff_ne_zero.mpr (Nat.succ_ne_zero n)) with
      | inl h1 =>
        have hn : n = 0 := by omega
        subst hn
        rw [Function.iterate_one]
        exact Relation.TransGen.single (hFd z.1 z.2)
      | inr h1 =>
        have hn : 1 ≤ n := by omega
        rw [Function.iterate_succ_apply']
        exact Relation.TransGen.tail (ih hn) (hFd _ _)
  have hmaps : ∀ n ∈ Finset.range (S.length + 1), (seq n).1 ∈ S.toFinset :=
    fun n _ => List.mem_toFinset.mpr (seq n).2
  have hcard : S.toFinset.card < (Finset.range (S.length + 1)).card := by
    rw [Finset.card_range]
    exact Nat.lt_succ_of_le (List.toFinset_card_le S)
  rcases Finset.exists_ne_map_eq_of_card_lt_of_maps_to hcard hmaps with
    ⟨i, _, j, _, hij, heq⟩
  rcases Nat.lt_or_ge i j with hlt | hge
  · refine ⟨(seq i).1, ?_⟩
    have hiter : (step^[j - i]) (seq i) = seq j := by
      show (step^[j - i]) ((step^[i]) ⟨x0, hx0⟩) = (step^[j]) ⟨x0, hx0⟩
      rw [← Function.iterate_add_apply]
      congr 1
      omega
    have hch := hchain (seq i) (j - i) (by omega)
    rw [hiter] at hch
    rw [← heq] at hch
    exact hch
  · have hlt2 : j < i := by
      rcases Nat.eq_or_lt_of_le hge with h1 | h1
      · exact absurd h1.symm hij
      · exact h1
    refine ⟨(seq j).1, ?_⟩
    have hiter : (step^[i - j]) (seq j) = seq i := by
      show (step^[i - j]) ((step^[j]) ⟨x0, hx0⟩) = (step^[i]) ⟨x0, hx0⟩
      rw [← Function.iterate_add_apply]
      congr 1
      omega
    have hch := hchain (seq j) (i - j) (by omega)
    rw [hiter] at hch
    rw [heq] at hch
    exact hch


theorem topologicalSort_eq_kahnRun (components : List (String × StepConfig))
    (g : List (String × List String)) :
    topologicalSort components g =
      if (kahnRun components g).length ≠ components.length then
        Except.error "Circular dependency detected in workflow"
      else Except.ok (kahnRun components g) := rfl

theorem kahnRun_props (components : List (String × StepConfig))
    (hidnd : (components.map Prod.fst).Nodup) :
    (kahnRun components (buildDependencyGraph components)).Nodup ∧
    (∀ x ∈ kahnRun components (buildDependencyGraph components), x ∈ components.map Prod.fst) ∧
    (∀ (i : Nat) (z : String),
      (kahnRun components (buildDependencyGraph components))[i]? = some z →
      ∀ y ∈ depsOf (buildDependencyGraph components) z,
        y ∈ (kahnRun components (buildDependencyGraph components)).take i) ∧
    ((kahnRun components (buildDependencyGraph components)).length =
        (components.map Prod.fst).length ∨
      ∀ x ∈ components.map Prod.fst,
        x ∉ kahnRun components (buildDependencyGraph components) →
        ∃ y ∈ depsOf (buildDependencyGraph components) x,
          y ∉ kahnRun components (buildDependencyGraph components)) := by
  obtain ⟨⟨hknd, hksub⟩, hvnd, _⟩ := graphShape_build components
  exact kahnLoop_props hknd hksub hvnd (components.map Prod.fst).length _ _ []
    (kahn_init hidnd) (by simp)

theorem kahnRun_complete_of_acyclic (components : List (String × StepConfig))
    (hidnd : (components.map Prod.fst).Nodup)
    (hacyc : Acyclic (buildDependencyGraph components)) :
    (kahnRun components (buildDependencyGraph components)).length =
      (components.map Prod.fst).length := by
  obtain ⟨hnd, hsub, hord, hdisj⟩ := kahnRun_props components hidnd
  rcases hdisj with h | h
  · exact h
  · by_cases hfull : ∀ x ∈ components.map Prod.fst,
        x ∈ kahnRun components (buildDependencyGraph components)
    · have h1 := (List.subperm_of_subset hidnd hfull).length_le
      have h2 := (List.subperm_of_subset hnd hsub).length_le
      omega
    · exfalso
      push_neg at hfull
      rcases hfull with ⟨x0, hx0, hx0r⟩
      set rf := kahnRun components (buildDependencyGraph components) with hrf
      have hSne : (components.map Prod.fst).filter (fun x => decide (x ∉ rf)) ≠ [] := by
        apply List.ne_nil_of_mem (a := x0)
        rw [List.mem_filter]
        exact ⟨hx0, by simp [hx0r]⟩
      have hclosed : ∀ z ∈ (components.map Prod.fst).filter (fun x => decide (x ∉ rf)),
          ∃ y ∈ (components.map Prod.fst).filter (fun x => decide (x ∉ rf)),
            y ∈ depsOf (buildDependencyGraph components) z := by
        intro z hz
        rcases List.mem_filter.mp hz with ⟨hzids, hzr⟩
        rcases h z hzids (of_decide_eq_true hzr) with ⟨y, hyd, hyr⟩
        refine ⟨y, ?_, hyd⟩
        rw [List.mem_filter]
        exact ⟨edge_tgt_mem components hyd, by simp [hyr]⟩
      rcases cycle_of_closed hSne hclosed with ⟨x, hx⟩
      exact hacyc x hx

/-- With an acyclic inferred dependency relation, _topological_sort returns an
order that lists every step exactly once and positions every step after all of
the steps it depends on. -/
theorem topologicalSort_ok_of_acyclic (components : List (String × StepConfig))
    (hidnd : (components.map Prod.fst).Nodup)
    (hacyc : Acyclic (buildDependencyGraph components)) :
    ∃ order, topologicalSort components (buildDependencyGraph components) =
        Except.ok order ∧
      order.Perm (components.map Prod.fst) ∧
      ∀ (i : Nat) (z : String), order[i]? = some z →
        ∀ y ∈ depsOf (buildDependencyGraph components) z, y ∈ order.take i := by
  obtain ⟨hnd, hsub, hord, _⟩ := kahnRun_props components hidnd
  have hlen := kahnRun_complete_of_acyclic components hidnd hacyc
  have hcl : (components.map Prod.fst).length = components.length :=
    List.length_map components Prod.fst
  refine ⟨kahnRun components (buildDependencyGraph components), ?_, ?_, hord⟩
  · rw [topologicalSort_eq_kahnRun, if_neg (by omega)]
  · exact List.Subperm.perm_of_length_le (List.subperm_of_subset hnd hsub) (by omega)

/-- With a cyclic inferred dependency relation, _topological_sort raises the
circular-dependency ValueError. -/
theorem topologicalSort_error_of_cycle (components : List (String × StepConfig))
    (hidnd : (components.map Prod.fst).Nodup)
    (hcyc : ¬ Acyclic (buildDependencyGraph components)) :
    topologicalSort components (buildDependencyGraph components) =
      Except.error "Circular dependency detected in workflow" := by
  obtain ⟨hnd, hsub, hord, _⟩ := kahnRun_props components hidnd
  have hcl : (components.map Prod.fst).length = components.length :=
    List.length_map components Prod.fst
  rw [topologicalSort_eq_kahnRun]
  by_cases hlen : (kahnRun components (buildDependencyGraph components)).length =
      components.length
  · exfalso
    apply hcyc
    intro x htg
    set rf := kahnRun components (buildDependencyGraph components) with hrf
    have hperm : rf.Perm (components.map Prod.fst) :=
      List.Subperm.perm_of_length_le (List.subperm_of_subset hnd hsub) (by omega)
    have hall : ∀ a b, depEdge (buildDependencyGraph components) a b →
        a ∈ rf ∧ b ∈ rf := by
      intro a b hab
      rw [depEdge] at hab
      exact ⟨hperm.mem_iff.mpr (edge_src_mem components hab),
        hperm.mem_iff.mpr (edge_tgt_mem components hab)⟩
    exact lt_irrefl _ (transGen_indexOf_lt hall hord htg)
  · rw [if_pos hlen]

/-! ## Lemmas about the execution engine -/

theorem lookup_map_update_ne (k k2 : String) (v : Value) (h : k2 ≠ k) :
    ∀ m : List (String × Value),
      (m.map (fun p => if p.1 = k then (k, v) else p)).lookup k2 = m.lookup k2
  | [] => rfl
  | p :: rest => by
    rw [List.map_cons]
    by_cases hp : p.1 = k
    · have hhead : (if p.1 = k then ((k : String), v) else p) = (k, v) := if_pos hp
      rw [hhead, lookup_cons_ite, if_neg h]
      rcases p with ⟨a, b⟩
      rw [lookup_cons_ite, if_neg (by
        intro he
        exact h (he.trans hp))]
      exact lookup_map_update_ne k k2 v h rest
    · have hhead : (if p.1 = k then ((k : String), v) else p) = p := if_neg hp
      rw [hhead]
      rcases p with ⟨a, b⟩
      rw [lookup_cons_ite, lookup_cons_ite]
      by_cases hk2 : k2 = a
      · rw [if_pos hk2, if_pos hk2]
      · rw [if_neg hk2, if_neg hk2]
        exact lookup_map_update_ne k k2 v h rest

theorem dset_lookup_ne (m : List (String × Value)) (k k2 : String) (v : Value)
    (h : k2 ≠ k) : (dset m k v).lookup k2 = m.lookup k2 := by
  rw [dset]
  by_cases hs : (m.lookup k).isSome
  · rw [if_pos hs]
    exact lookup_map_update_ne k k2 v h m
  · rw [if_neg hs, List.lookup_append, lookup_cons_ite, if_neg h, lookup_nil_str,
      Option.or_none]

theorem failDict_lookup_success (e : String) (ctx : Dict) :
    getBool ((failDict e ctx).lookup "success") = some false := rfl

theorem failDict_lookup_error (e : String) (ctx : Dict) :
    getStr ((failDict e ctx).lookup "error") = some e := by
  rw [failDict, lookup_cons_ite, if_neg (by decide), lookup_cons_ite, if_pos rfl]
  rfl

theorem failDict_lookup_context (e : String) (ctx : Dict) :
    (failDict e ctx).lookup "context" = some (Value.dict ctx) := by
  rw [failDict, lookup_cons_ite, if_neg (by decide), lookup_cons_ite,
    if_neg (by decide), lookup_cons_ite, if_pos rfl]

theorem failDict_lookup_results (e : String) (ctx : Dict) :
    (failDict e ctx).lookup "results" = none := by
  rw [failDict, lookup_cons_ite, if_neg (by decide), lookup_cons_ite,
    if_neg (by decide), lookup_cons_ite, if_neg (by decide), lookup_nil_str]


theorem executeComponentS_trace (beh : Behavior) (st : RunState) (cid : String)
    (cfg : StepConfig) :
    (outState (executeComponentS beh st cid cfg)).trace = st.trace ++ [cid] := by
  rw [executeComponentS]
  repeat first
  | rfl
  | split
  | dsimp only

theorem executeWorkflow_sortError (beh : Behavior) (wf : Workflow) (e : String)
    (h : topologicalSort wf.components wf.dependencies = Except.error e) :
    executeWorkflow beh wf = some (failDict e [], {}) := by
  rw [executeWorkflow, h, executeAfterSort]

theorem executeWorkflow_sortOk (beh : Behavior) (wf : Workflow) (order : List String)
    (h : topologicalSort wf.components wf.dependencies = Except.ok order) :
    executeWorkflow beh wf =
      executeAfterClassify beh wf order (classifyPass beh wf.components order {} [] []) := by
  rw [executeWorkflow, h, executeAfterSort]


theorem dgetD_dset_ne (m : List (String × Value)) (k k2 : String) (v d : Value)
    (h : k2 ≠ k) : dgetD (dset m k v) k2 d = dgetD m k2 d := by
  rw [dgetD, dgetD, dset_lookup_ne m k k2 v h]

theorem executeComponentS_allOk {beh : Behavior} (hAll : AllOk beh)
    (st : RunState) (cid : String) (cfg : StepConfig) :
    ∃ r st2, executeComponentS beh st cid cfg = Except.ok (r, st2) ∧
      truthy (dgetD r "success" (.bool false)) = true := by
  rw [executeComponentS, hAll.create cid cfg]
  rcases hat : cfg.action_type with _ | a
  · rcases het : cfg.event_type with _ | ev
    · refine ⟨_, _, rfl, ?_⟩
      rfl
    · rcases hAll.event cid
        (lockFreeResolveConfig st.ctx cfg.config)
        st.ctx with ⟨r, hr, hrs⟩
      simp only [hr]
      refine ⟨_, _, rfl, ?_⟩
      by_cases hp : cfg.is_trigger && instRunning
          (setListening (st.insts ++
            [{ eid := st.nextId, owner := cid, listening := false }]) st.nextId true)
          st.nextId
      · rw [if_pos hp]
        show truthy (dgetD (dset r "persistent_listener" (.bool true)) "success"
          (.bool false)) = true
        rw [dgetD_dset_ne r "persistent_listener" "success" (.bool true) (.bool false)
          (by decide)]
        exact hrs
      · rw [if_neg hp]
        exact hrs
  · rcases hAll.action cid (lockFreeResolveConfig st.ctx cfg.config) st.ctx with
      ⟨r, hr, hrs⟩
    simp only [hr]
    exact ⟨_, _, rfl, hrs⟩

theorem executeComponentS_ok_trace {beh : Behavior} {st : RunState} {cid : String}
    {cfg : StepConfig} {r : Dict} {st2 : RunState}
    (h : executeComponentS beh st cid cfg = Except.ok (r, st2)) :
    st2.trace = st.trace ++ [cid] := by
  have := executeComponentS_trace beh st cid cfg
  rw [h] at this
  exact this

theorem executeComponentS_error_trace {beh : Behavior} {st : RunState} {cid : String}
    {cfg : StepConfig} {e : String} {st2 : RunState}
    (h : executeComponentS beh st cid cfg = Except.error (e, st2)) :
    st2.trace = st.trace ++ [cid] := by
  have := executeComponentS_trace beh st cid cfg
  rw [h] at this
  exact this

theorem batchLoop_cons_error {beh : Behavior} {components : List (String × StepConfig)}
    {cid : String} {rest : List String} {st : RunState} {results : Dict}
    {e : String} {st3 : RunState}
    (hout : executeComponentS beh st cid (stepCfg components cid) = Except.error (e, st3)) :
    batchLoop beh components (cid :: rest) st results = Except.error (e, st3) := by
  rw [batchLoop, hout]

theorem batchLoop_cons_ok {beh : Behavior} {components : List (String × StepConfig)}
    {cid : String} {rest : List String} {st : RunState} {results : Dict}
    {r : Dict} {st3 : RunState}
    (hout : executeComponentS beh st cid (stepCfg components cid) = Except.ok (r, st3)) :
    batchLoop beh components (cid :: rest) st results =
      batchLoop beh components rest st3 (dset results cid (.dict r)) := by
  rw [batchLoop, hout]

theorem classifyPass_cons_persistent {beh : Behavior}
    {components : List (String × StepConfig)} {cid : String} {rest : List String}
    {st : RunState} {pts acts : List String}
    (htrig : (stepCfg components cid).is_trigger = true)
    (hto : isIntNegOne (dgetD (stepCfg components cid).config "timeout" (.int (-1))) = true) :
    classifyPass beh components (cid :: rest) st pts acts =
      classifyPass beh components rest st (pts ++ [cid]) acts := by
  rw [classifyPass, if_pos htrig, hto]
  rw [if_pos rfl]

theorem classifyPass_cons_action {beh : Behavior}
    {components : List (String × StepConfig)} {cid : String} {rest : List String}
    {st : RunState} {pts acts : List String}
    (htrig : (stepCfg components cid).is_trigger = false) :
    classifyPass beh components (cid :: rest) st pts acts =
      classifyPass beh components rest st pts (acts ++ [cid]) := by
  rw [classifyPass, if_neg (by rw [htrig]; exact Bool.false_ne_true)]

theorem classifyPass_cons_trigger_raise {beh : Behavior}
    {components : List (String × StepConfig)} {cid : String} {rest : List String}
    {st : RunState} {pts acts : List String} {e : String} {st3 : RunState}
    (htrig : (stepCfg components cid).is_trigger = true)
    (hto : isIntNegOne (dgetD (stepCfg components cid).config "timeout" (.int (-1))) = false)
    (hout : executeComponentS beh st cid (stepCfg components cid) = Except.error (e, st3)) :
    classifyPass beh components (cid :: rest) st pts acts = PassOut.raised e st3 := by
  rw [classifyPass, if_pos htrig, hto]
  rw [if_neg (by exact Bool.false_ne_true), hout]

theorem classifyPass_cons_trigger_run {beh : Behavior}
    {components : List (String × StepConfig)} {cid : String} {rest : List String}
    {st : RunState} {pts acts : List String} {r : Dict} {st3 : RunState}
    (htrig : (stepCfg components cid).is_trigger = true)
    (hto : isIntNegOne (dgetD (stepCfg components cid).config "timeout" (.int (-1))) = false)
    (hout : executeComponentS beh st cid (stepCfg components cid) = Except.ok (r, st3)) :
    classifyPass beh components (cid :: rest) st pts acts =
      if truthy (dgetD r "success" (.bool false)) = true then
        classifyPass beh components rest st3 pts acts
      else
        PassOut.early (failDict ("Trigger " ++ cid ++ " failed: " ++
          pyStr (dgetD r "error" (.str "Unknown error"))) st3.ctx) st3 := by
  rw [classifyPass, if_pos htrig, hto]
  rw [if_neg (by exact Bool.false_ne_true), hout]

/-- A raise inside the batch pass surfaces as an error whose state has attempted
exactly the steps of the order up to and including the raising one. -/
theorem batchLoop_error_shape {beh : Behavior} {components : List (String × StepConfig)} :
    ∀ {order : List String} {st : RunState} {results : Dict} {e : String} {st2 : RunState},
      batchLoop beh components order st results = Except.error (e, st2) →
      ∃ pre cid post, order = pre ++ cid :: post ∧
        st2.trace = st.trace ++ pre ++ [cid]
  | [], st, results, e, st2, h => by
    rw [batchLoop] at h
    cases h
  | cid :: rest, st, results, e, st2, h => by
    rcases hout : executeComponentS beh st cid (stepCfg components cid) with
      ⟨e2, st3⟩ | ⟨r, st3⟩
    · rw [batchLoop_cons_error hout] at h
      cases h
      refine ⟨[], cid, rest, rfl, ?_⟩
      have := executeComponentS_error_trace hout
      simpa using this
    · rw [batchLoop_cons_ok hout] at h
      rcases batchLoop_error_shape h with ⟨pre, cid2, post, hord, htr⟩
      refine ⟨cid :: pre, cid2, post, by rw [hord]; simp, ?_⟩
      rw [htr, executeComponentS_ok_trace hout]
      simp

/-- With a behavior that always succeeds, the batch pass completes and attempts
exactly the steps of the order, in order. -/
theorem batchLoop_allOk {beh : Behavior} (hAll : AllOk beh)
    (components : List (String × StepConfig)) :
    ∀ (order : List String) (st : RunState) (results : Dict),
      ∃ res st2, batchLoop beh components order st results = Except.ok (res, st2) ∧
        st2.trace = st.trace ++ order
  | [], st, results => ⟨results, st, by rw [batchLoop], by simp⟩
  | cid :: rest, st, results => by
    rcases executeComponentS_allOk hAll st cid (stepCfg components cid) with
      ⟨r, st3, hout, _⟩
    rcases batchLoop_allOk hAll components rest st3 (dset results cid (.dict r)) with
      ⟨res, st2, hloop, htr⟩
    refine ⟨res, st2, ?_, ?_⟩
    · rw [batchLoop_cons_ok hout]
      exact hloop
    · rw [htr, executeComponentS_ok_trace hout]
      simp


/-- With a behavior that always succeeds and no persistent trigger in the order,
the classification pass completes, collects the non-trigger steps as action
components in order, and executes exactly the trigger steps. -/
theorem classifyPass_allOk {beh : Behavior} (hAll : AllOk beh)
    (components : List (String × StepConfig)) :
    ∀ (order : List String) (st : RunState) (pts acts : List String),
      (∀ cid ∈ order, (stepCfg components cid).is_trigger = true →
        isIntNegOne (dgetD (stepCfg components cid).config "timeout" (.int (-1))) = false) →
      ∃ st2, classifyPass beh components order st pts acts =
          PassOut.done pts (acts ++ order.filter (fun cid => !isTrigStep components cid)) st2 ∧
        st2.trace = st.trace ++ order.filter (fun cid => isTrigStep components cid)
  | [], st, pts, acts, _ => ⟨st, by rw [classifyPass]; simp, by simp⟩
  | cid :: rest, st, pts, acts, hnp => by
    by_cases htrig : (stepCfg components cid).is_trigger = true
    · rcases executeComponentS_allOk hAll st cid (stepCfg components cid) with
        ⟨r, st3, hout, hsucc⟩
      rw [classifyPass_cons_trigger_run htrig
        (hnp cid (List.mem_cons_self _ _) htrig) hout, if_pos hsucc]
      rcases classifyPass_allOk hAll components rest st3 pts acts
        (fun c hc ht => hnp c (List.mem_cons_of_mem _ hc) ht) with ⟨st2, hcls, htr⟩
      refine ⟨st2, ?_, ?_⟩
      · rw [hcls, List.filter_cons]
        have h1 : (!isTrigStep components cid) = false := by
          rw [isTrigStep, htrig]
          rfl
        rw [h1]
        rfl
      · rw [htr, executeComponentS_ok_trace hout, List.filter_cons]
        have h1 : isTrigStep components cid = true := htrig
        rw [h1]
        simp
    · have htrig2 : (stepCfg components cid).is_trigger = false :=
        Bool.not_eq_true _ ▸ htrig
      rw [classifyPass_cons_action htrig2]
      rcases classifyPass_allOk hAll components rest st pts (acts ++ [cid])
        (fun c hc ht => hnp c (List.mem_cons_of_mem _ hc) ht) with ⟨st2, hcls, htr⟩
      refine ⟨st2, ?_, ?_⟩
      · rw [hcls, List.filter_cons]
        have h1 : (!isTrigStep components cid) = true := by
          rw [isTrigStep, htrig2]
          rfl
        rw [h1]
        simp
      · rw [htr, List.filter_cons]
        have h1 : isTrigStep components cid = false := htrig2
        rw [h1]
        simp

theorem executeAfterClassify_raised (beh : Behavior) (wf : Workflow)
    (order : List String) (e : String) (st : RunState) :
    executeAfterClassify beh wf order (PassOut.raised e st) =
      some (failDict e st.ctx, st) := rfl

theorem executeAfterClassify_early (beh : Behavior) (wf : Workflow)
    (order : List String) (res : Dict) (st : RunState) :
    executeAfterClassify beh wf order (PassOut.early res st) = some (res, st) := rfl

theorem executeAfterClassify_done_batch (beh : Behavior) (wf : Workflow)
    (order : List String) (acts : List String) (st : RunState) :
    executeAfterClassify beh wf order (PassOut.done [] acts st) =
      executeBatchTail beh wf order st := by
  rw [executeAfterClassify]
  rfl

theorem workflowInit_empty (name : String) :
    workflowInit name [] = Except.error "Workflow has no components" := rfl

theorem workflowInit_ok (name : String) (components : List (String × StepConfig))
    (h : components ≠ []) :
    workflowInit name components = Except.ok
      { name := name, components := components,
        dependencies := buildDependencyGraph components } := by
  rw [workflowInit, if_neg (by simp [h])]

/-! ## Lemmas about the reactive callback (workflow.py 276-304) -/

theorem callbackActions_cons_error {beh : Behavior}
    {components : List (String × StepConfig)} {cid : String} {rest : List String}
    {st : RunState} {log : List CycleStep} {e : String} {st2 : RunState}
    (hout : executeComponentS beh st cid (stepCfg components cid) = Except.error (e, st2)) :
    callbackActions beh components (cid :: rest) st log =
      callbackActions beh components rest st2 (log ++ [CycleStep.raised cid e]) := by
  rw [callbackActions, hout]

theorem callbackActions_cons_ok {beh : Behavior}
    {components : List (String × StepConfig)} {cid : String} {rest : List String}
    {st : RunState} {log : List CycleStep} {r : Dict} {st2 : RunState}
    (hout : executeComponentS beh st cid (stepCfg components cid) = Except.ok (r, st2)) :
    callbackActions beh components (cid :: rest) st log =
      callbackActions beh components rest st2
        (log ++ [CycleStep.finished cid (truthy (dgetD r "success" (.bool false)))]) := by
  rw [callbackActions, hout]

/-- Whatever the outcomes of the individual actions (raises included), one
callback firing logs an attempt for every action component, in order. -/
theorem callbackActions_attempts_all {beh : Behavior}
    {components : List (String × StepConfig)} :
    ∀ (acts : List String) (st : RunState) (log : List CycleStep),
      (callbackActions beh components acts st log).2.map CycleStep.cid =
        log.map CycleStep.cid ++ acts
  | [], st, log => by
    rw [callbackActions]
    simp
  | cid :: rest, st, log => by
    rcases hout : executeComponentS beh st cid (stepCfg components cid) with
      ⟨e, st2⟩ | ⟨r, st2⟩
    · rw [callbackActions_cons_error hout]
      rw [callbackActions_attempts_all rest st2 (log ++ [CycleStep.raised cid e])]
      simp [CycleStep.cid]
    · rw [callbackActions_cons_ok hout]
      rw [callbackActions_attempts_all rest st2 _]
      simp [CycleStep.cid]

/-- One callback firing attempts every action component exactly once, in order,
for every behavior (a raised fault or a failed result never stops the chain). -/
theorem workflowCallback_attempts_all (beh : Behavior)
    (components : List (String × StepConfig)) (triggerCfg : StepConfig)
    (acts : List String) (msg : Dict) (st : RunState) :
    (workflowCallback beh components triggerCfg acts msg st).2.map CycleStep.cid = acts := by
  rw [workflowCallback]
  rw [callbackActions_attempts_all]
  simp

/-- The listener processes every delivered event as an independent cycle: the
log has one cycle per event, and every cycle attempts every action component. -/
theorem processEvents_all_cycles (beh : Behavior)
    (components : List (String × StepConfig)) (triggerCfg : StepConfig)
    (acts : List String) :
    ∀ (events : List Dict) (st : RunState),
      (processEvents beh components triggerCfg acts events st).2.length = events.length ∧
      ∀ log ∈ (processEvents beh components triggerCfg acts events st).2,
        log.map CycleStep.cid = acts
  | [], st => by
    rw [processEvents]
    exact ⟨rfl, fun log hlog => absurd hlog (List.not_mem_nil log)⟩
  | m :: ms, st => by
    rw [processEvents]
    rcases processEvents_all_cycles beh components triggerCfg acts ms
      (workflowCallback beh components triggerCfg acts m st).1 with ⟨hlen, hall⟩
    constructor
    · simp [hlen]
    · intro log hlog
      rcases List.mem_cons.mp hlog with heq | hmem
      · rw [heq]
        exact workflowCallback_attempts_all beh components triggerCfg acts m st
      · exact hall log hmem

/-! ## Lemmas about a single placeholder token

The engine's lock-free bypass (workflow.py 124-137) substitutes a bound token
through str.replace; these lemmas show the substitution succeeding on a token,
in contrast with the deadlock of resolve_placeholders on the same input. -/

theorem matchPH_token (ph : String) (hne : ph.toList ≠ [])
    (hnb : ∀ ch ∈ ph.toList, ¬ ch = '}') :
    matchPH (phToken ph).toList = some (ph.toList, []) := by
  have hl : (phToken ph).toList = '{' :: '{' :: (ph.toList ++ ['}', '}']) := rfl
  rw [hl, matchPH, if_pos (show '{' = '{' ∧ '{' = '{' from ⟨rfl, rfl⟩)]
  have hall : ∀ ch ∈ ph.toList, (fun c => decide ¬(c = '}')) ch = true := by
    intro ch hch
    simp [hnb ch hch]
  rw [List.takeWhile_append_of_pos hall, List.dropWhile_append_of_pos hall]
  have htw : List.takeWhile (fun c => decide ¬(c = '}')) ['}', '}'] = [] := rfl
  have hdw : List.dropWhile (fun c => decide ¬(c = '}')) ['}', '}'] = ['}', '}'] := rfl
  rw [htw, hdw, List.append_nil]
  cases hp : ph.toList with
  | nil => exact absurd hp hne
  | cons c cs => rfl

theorem findPHFuel_nil (n : Nat) : findPHFuel n [] = [] := by
  cases n <;> rfl

/-- The placeholder scan of a lone token finds exactly its identifier. -/
theorem placeholders_token (ph : String) (hne : ph.toList ≠ [])
    (hnb : ∀ ch ∈ ph.toList, ¬ ch = '}') :
    placeholders (phToken ph) = [ph] := by
  rw [placeholders, findPH]
  have hl : (phToken ph).toList = '{' :: '{' :: (ph.toList ++ ['}', '}']) := rfl
  have hlen : (phToken ph).toList.length = (ph.toList.length + 3) + 1 := by
    rw [hl]
    simp only [List.length_cons, List.length_append, List.length_nil]
  rw [hlen]
  rw [hl, findPHFuel, ← hl, matchPH_token ph hne hnb]
  show String.mk ph.toList :: findPHFuel (ph.toList.length + 3) [] = [ph]
  rw [findPHFuel_nil]
  rfl

theorem pyReplaceFuel_nil (pat rep : List Char) (n : Nat) :
    pyReplaceFuel pat rep n [] = [] := by
  cases n <;> rfl

/-- Python replace of the whole string by the replacement. -/
theorem pyReplace_self (s rep : String) (hne : s.toList ≠ []) :
    pyReplace s s rep = rep := by
  have hs : ¬ s = "" := by
    intro h
    rw [h] at hne
    exact hne rfl
  rw [pyReplace, if_neg hs]
  cases hp : s.toList with
  | nil => exact absurd hp hne
  | cons c cs =>
    have hlen : (c :: cs).length = cs.length + 1 := by simp
    rw [hlen, pyReplaceFuel]
    have hpre : (c :: cs).isPrefixOf (c :: cs) = true := by
      rw [List.isPrefixOf_iff_prefix]
    rw [if_pos hpre]
    have hdrop : (c :: cs).drop (c :: cs).length = [] := List.drop_length _
    rw [hdrop, pyReplaceFuel_nil, List.append_nil]
    rfl

/-- The lock-free manual substitution of _execute_component resolves a bound,
non-None token to the stringified value — without touching the context lock. -/
theorem lockFreeResolveStr_token (data : List (String × Value)) (ph : String)
    (v : Value) (hne : ph.toList ≠ []) (hnb : ∀ ch ∈ ph.toList, ¬ ch = '}')
    (hv : data.lookup ph = some v) (hnn : isVNone v = false) :
    lockFreeResolveStr data (phToken ph) = pyStr v := by
  rw [lockFreeResolveStr, placeholders_token ph hne hnb, List.foldl_cons,
    List.foldl_nil, hv]
  show (if isVNone v = true then phToken ph
    else pyReplace (phToken ph) (phToken ph) (pyStr v)) = pyStr v
  rw [if_neg (by simp [hnn])]
  apply pyReplace_self
  rw [show (phToken ph).toList = '{' :: '{' :: (ph.toList ++ ['}', '}']) from rfl]
  exact List.cons_ne_nil _ _

/-! ## Lemmas about cleanup (workflow.py 186-205) -/

theorem cleanupS_cons_skip {beh : Behavior} {cid : String} {cfg : StepConfig}
    {rest : List (String × StepConfig)} {st : RunState}
    (h : (cfg.event_type.isSome && cfg.is_trigger) = false) :
    cleanupS beh ((cid, cfg) :: rest) st = cleanupS beh rest st := by
  rw [cleanupS, if_neg (by simp [h])]

theorem cleanupS_cons_fail {beh : Behavior} {cid : String} {cfg : StepConfig}
    {rest : List (String × StepConfig)} {st : RunState} {e : String}
    (h : (cfg.event_type.isSome && cfg.is_trigger) = true)
    (hc : beh.createComp cid cfg = Except.error e) :
    cleanupS beh ((cid, cfg) :: rest) st = cleanupS beh rest st := by
  rw [cleanupS, if_pos h, hc]

theorem cleanupS_cons_hang {beh : Behavior} {cid : String} {cfg : StepConfig}
    {rest : List (String × StepConfig)} {st : RunState} {u : Unit}
    (h : (cfg.event_type.isSome && cfg.is_trigger) = true)
    (hc : beh.createComp cid cfg = Except.ok u)
    (hr : resolveConfigEntries { data := st.ctx, locked := false } cfg.config = none) :
    cleanupS beh ((cid, cfg) :: rest) st = none := by
  rw [cleanupS, if_pos h, hc, hr]

theorem cleanupS_cons_stop {beh : Behavior} {cid : String} {cfg : StepConfig}
    {rest : List (String × StepConfig)} {st : RunState} {u : Unit}
    {rs : List (String × Value)}
    (h : (cfg.event_type.isSome && cfg.is_trigger) = true)
    (hc : beh.createComp cid cfg = Except.ok u)
    (hr : resolveConfigEntries { data := st.ctx, locked := false } cfg.config = some rs) :
    cleanupS beh ((cid, cfg) :: rest) st = cleanupS beh rest
      { st with
        insts := st.insts ++ [{ eid := st.nextId, owner := cid, listening := false }],
        nextId := st.nextId + 1 } := by
  rw [cleanupS, if_pos h, hc, hr]

/-- A returning cleanup leaves the context untouched and only appends fresh
event instances, every one of them non-listening: the instances created by the
run (listening ones included) survive with their flags unchanged. -/
theorem cleanupS_shape {beh : Behavior} :
    ∀ (comps : List (String × StepConfig)) (st st2 : RunState),
      cleanupS beh comps st = some st2 →
      st2.ctx = st.ctx ∧
      ∃ news, st2.insts = st.insts ++ news ∧ ∀ i ∈ news, i.listening = false
  | [], st, st2, h => by
    rw [cleanupS] at h
    cases h
    exact ⟨rfl, [], by simp, fun i hi => absurd hi (List.not_mem_nil i)⟩
  | (cid, cfg) :: rest, st, st2, h => by
    by_cases hcond : (cfg.event_type.isSome && cfg.is_trigger) = true
    · rcases hc : beh.createComp cid cfg with e | u
      · rw [cleanupS_cons_fail hcond hc] at h
        exact cleanupS_shape rest st st2 h
      · rcases hr : resolveConfigEntries { data := st.ctx, locked := false } cfg.config
          with _ | rs
        · rw [cleanupS_cons_hang hcond hc hr] at h
          cases h
        · rw [cleanupS_cons_stop hcond hc hr] at h
          rcases cleanupS_shape rest _ st2 h with ⟨hctx, news, hinsts, hlist⟩
          refine ⟨hctx, { eid := st.nextId, owner := cid, listening := false } :: news,
            ?_, ?_⟩
          · rw [hinsts]
            simp
          · intro i hi
            rcases List.mem_cons.mp hi with heq | hm
            · rw [heq]
            · exact hlist i hm
    · rw [cleanupS_cons_skip (by simpa using hcond)] at h
      exact cleanupS_shape rest st st2 h

/-- Whether cleanup returns depends only on the context data: it can be run
again from any state with the same context, in particular from its own result
state. -/
theorem cleanupS_again {beh : Behavior} :
    ∀ (comps : List (String × StepConfig)) (st st2 st3 : RunState),
      cleanupS beh comps st = some st2 → st3.ctx = st.ctx →
      ∃ st4, cleanupS beh comps st3 = some st4
  | [], _, _, st3, _, _ => ⟨st3, by rw [cleanupS]⟩
  | (cid, cfg) :: rest, st, st2, st3, h, hctx => by
    by_cases hcond : (cfg.event_type.isSome && cfg.is_trigger) = true
    · rcases hc : beh.createComp cid cfg with e | u
      · rw [cleanupS_cons_fail hcond hc] at h
        rcases cleanupS_again rest st st2 st3 h hctx with ⟨st4, h4⟩
        exact ⟨st4, by rw [cleanupS_cons_fail hcond hc]; exact h4⟩
      · rcases hr : resolveConfigEntries { data := st.ctx, locked := false } cfg.config
          with _ | rs
        · rw [cleanupS_cons_hang hcond hc hr] at h
          cases h
        · rw [cleanupS_cons_stop hcond hc hr] at h
          have hr3 : resolveConfigEntries { data := st3.ctx, locked := false }
              cfg.config = some rs := by
            rw [hctx]
            exact hr
          rcases cleanupS_again rest _ st2
            { st3 with
              insts := st3.insts ++
                [{ eid := st3.nextId, owner := cid, listening := false }],
              nextId := st3.nextId + 1 } h hctx with ⟨st4, h4⟩
          exact ⟨st4, by rw [cleanupS_cons_stop hcond hc hr3]; exact h4⟩
    · rw [cleanupS_cons_skip (by simpa using hcond)] at h
      rcases cleanupS_again rest st st2 st3 h hctx with ⟨st4, h4⟩
      exact ⟨st4, by rw [cleanupS_cons_skip (by simpa using hcond)]; exact h4⟩

/-! ## Lemmas about the heap model of get_all (context.py 30-33) -/

theorem lookup_nil_nat {β : Type} (a : Nat) :
    List.lookup a ([] : List (Nat × β)) = none := rfl

theorem lookup_cons_ite_nat {β : Type} (a k : Nat) (v : β) (es : List (Nat × β)) :
    List.lookup a ((k, v) :: es) = if a = k then some v else List.lookup a es := by
  rw [List.lookup_cons]
  by_cases h : a = k
  · subst h
    simp
  · rw [if_neg h, beq_false_of_ne h]

theorem mem_of_lookup_eq_some_nat {β : Type} :
    ∀ {l : List (Nat × β)} {a : Nat} {b : β}, l.lookup a = some b → (a, b) ∈ l
  | [], a, b, h => by
    rw [lookup_nil_nat] at h
    cases h
  | (k, v) :: rest, a, b, h => by
    rw [lookup_cons_ite_nat] at h
    by_cases hk : a = k
    · rw [if_pos hk] at h
      cases h
      subst hk
      exact List.mem_cons_self _ _
    · rw [if_neg hk] at h
      exact List.mem_cons_of_mem _ (mem_of_lookup_eq_some_nat h)

/-- On a well-formed heap, a readable address and everything its object
references lie below the allocation counter. -/
theorem hget_lt_next {h : Heap} (hwf : HeapWF h) {a : Nat} {o : PyObj}
    (hg : hget h a = some o) : a < h.next ∧ ∀ r ∈ objRefs o, r < h.next := by
  exact hwf.2 (a, o) (mem_of_lookup_eq_some_nat hg)

/-- Overwriting the freshly allocated copy cell leaves every pre-existing cell
in place: mutation of the snapshot object is invisible at old addresses. -/
theorem hget_frame (h : Heap) (es : List (String × Nat)) (o : PyObj)
    (hlt : ∀ p ∈ h.cells, p.1 < h.next) (a : Nat) (ha : a < h.next) :
    hget (hset { cells := h.cells ++ [(h.next, .pdict es)], next := h.next + 1 }
      h.next o) a = hget h a := by
  rw [hget, hset]
  show ((h.cells ++ [(h.next, PyObj.pdict es)]).map
    (fun p => if p.1 = h.next then (h.next, o) else p)).lookup a = hget h a
  rw [List.map_append]
  have hmap : h.cells.map (fun p => if p.1 = h.next then (h.next, o) else p) =
      h.cells := by
    rw [List.map_congr_left (fun p hp => if_neg (Nat.ne_of_lt (hlt p hp)))]
    exact List.map_id h.cells
  have h2 : List.map (fun p => if p.1 = h.next then (h.next, o) else p)
      [(h.next, PyObj.pdict es)] = [(h.next, o)] := by
    simp
  rw [hmap, h2]
  rw [List.lookup_append]
  have h1 : List.lookup a [(h.next, o)] = none := by
    rw [lookup_cons_ite_nat, if_neg (Nat.ne_of_lt ha), lookup_nil_nat]
  rw [h1, hget]
  cases h.cells.lookup a <;> rfl

/-- deepRead is stable under any heap change that preserves every cell below
the allocation counter. -/
theorem deepRead_frame {h : Heap} (hwf : HeapWF h) (h3 : Heap)
    (hcells : ∀ a, a < h.next → hget h3 a = hget h a) :
    ∀ (fuel : Nat) (a : Nat), a < h.next → deepRead h3 fuel a = deepRead h fuel a
  | 0, _, _ => rfl
  | fuel + 1, a, ha => by
    rw [deepRead, deepRead, hcells a ha]
    rcases hg : hget h a with _ | ob
    · rfl
    rcases ob with v | es
    · rfl
    · have hrefs : ∀ r ∈ es.map Prod.snd, r < h.next := (hget_lt_next hwf hg).2
      show (es.foldr (fun p acc => do
          let rest ← acc
          let v ← deepRead h3 fuel p.2
          pure ((p.1, v) :: rest)) (some [])).map Value.dict =
        (es.foldr (fun p acc => do
          let rest ← acc
          let v ← deepRead h fuel p.2
          pure ((p.1, v) :: rest)) (some [])).map Value.dict
      have hfold : ∀ (l : List (String × Nat)), (∀ r ∈ l.map Prod.snd, r < h.next) →
          l.foldr (fun p acc => do
            let rest ← acc
            let v ← deepRead h3 fuel p.2
            pure ((p.1, v) :: rest)) (some []) =
          l.foldr (fun p acc => do
            let rest ← acc
            let v ← deepRead h fuel p.2
            pure ((p.1, v) :: rest)) (some []) := by
        intro l
        induction l with
        | nil => intro hl; rfl
        | cons p ps ih =>
          intro hl
          rw [List.foldr_cons, List.foldr_cons]
          rw [ih (fun r hr => hl r (by
            rw [List.map_cons]
            exact List.mem_cons_of_mem _ hr))]
          rw [deepRead_frame hwf h3 hcells fuel p.2 (hl p.2 (by
            rw [List.map_cons]
            exact List.mem_cons_self _ _))]
      rw [hfold es hrefs]

/-! ## The claims -/

/-- C1.  An empty step map is rejected by the constructor; with an acyclic
inferred dependency relation _topological_sort returns an order listing every
step exactly once with every step after all of the steps it depends on; with a
cyclic relation it raises the circular-dependency ValueError, and execute
returns that error as its failure result with no step executed (empty trace). -/
theorem claim_C1 (name : String) (components : List (String × StepConfig))
    (hidnd : (components.map Prod.fst).Nodup) :
    (components = [] →
      workflowInit name components = Except.error "Workflow has no components") ∧
    (Acyclic (buildDependencyGraph components) →
      ∃ order, topologicalSort components (buildDependencyGraph components) =
          Except.ok order ∧
        order.Perm (components.map Prod.fst) ∧
        ∀ (i : Nat) (z : String), order[i]? = some z →
          ∀ y ∈ depsOf (buildDependencyGraph components) z, y ∈ order.take i) ∧
    (¬ Acyclic (buildDependencyGraph components) →
      topologicalSort components (buildDependencyGraph components) =
        Except.error "Circular dependency detected in workflow" ∧
      ∀ (beh : Behavior) (wf : Workflow), wf.components = components →
        wf.dependencies = buildDependencyGraph components →
        ∃ st, executeWorkflow beh wf =
            some (failDict "Circular dependency detected in workflow" [], st) ∧
          st.trace = []) := by
  refine ⟨fun hc => by rw [hc]; rfl,
    fun hacyc => topologicalSort_ok_of_acyclic components hidnd hacyc,
    fun hcyc => ⟨topologicalSort_error_of_cycle components hidnd hcyc, ?_⟩⟩
  intro beh wf hc hd
  refine ⟨{}, ?_, rfl⟩
  apply executeWorkflow_sortError
  rw [hc, hd]
  exact topologicalSort_error_of_cycle components hidnd hcyc

/-- Witness for C1 at the three-step chain. -/
theorem claim_C1_witness :
    (cmpsChain = [] →
      workflowInit "chain" cmpsChain = Except.error "Workflow has no components") ∧
    (Acyclic (buildDependencyGraph cmpsChain) →
      ∃ order, topologicalSort cmpsChain (buildDependencyGraph cmpsChain) =
          Except.ok order ∧
        order.Perm (cmpsChain.map Prod.fst) ∧
        ∀ (i : Nat) (z : String), order[i]? = some z →
          ∀ y ∈ depsOf (buildDependencyGraph cmpsChain) z, y ∈ order.take i) ∧
    (¬ Acyclic (buildDependencyGraph cmpsChain) →
      topologicalSort cmpsChain (buildDependencyGraph cmpsChain) =
        Except.error "Circular dependency detected in workflow" ∧
      ∀ (beh : Behavior) (wf : Workflow), wf.components = cmpsChain →
        wf.dependencies = buildDependencyGraph cmpsChain →
        ∃ st, executeWorkflow beh wf =
            some (failDict "Circular dependency detected in workflow" [], st) ∧
          st.trace = []) :=
  claim_C1 "chain" cmpsChain (by decide)

/-- C2.  In batch mode a raise aborts the run: execute returns the failure dict
with success False, the raised error text and the context snapshot — but the
dict has no results key, so the records of the steps completed before the
failure are discarded (the trace shows them attempted). -/
theorem claim_C2 (beh : Behavior) (wf : Workflow) (order : List String)
    (st : RunState) (e : String) (st2 : RunState)
    (h : batchLoop beh wf.components order st [] = Except.error (e, st2)) :
    executeBatchTail beh wf order st = some (failDict e st2.ctx, st2) ∧
    getBool ((failDict e st2.ctx).lookup "success") = some false ∧
    getStr ((failDict e st2.ctx).lookup "error") = some e ∧
    (failDict e st2.ctx).lookup "context" = some (Value.dict st2.ctx) ∧
    (failDict e st2.ctx).lookup "results" = none ∧
    ∃ pre cid post, order = pre ++ cid :: post ∧
      st2.trace = st.trace ++ pre ++ [cid] := by
  refine ⟨?_, failDict_lookup_success e st2.ctx, failDict_lookup_error e st2.ctx,
    failDict_lookup_context e st2.ctx, failDict_lookup_results e st2.ctx,
    batchLoop_error_shape h⟩
  rw [executeBatchTail, h]

/-- Witness for C2: step B of the pair raises after A completed. -/
theorem claim_C2_witness :
    executeBatchTail behRaiseB wfPair ["A", "B"] {} =
      some (failDict "Action Failed" [], { trace := ["A", "B"] }) ∧
    getBool ((failDict "Action Failed" ([] : Dict)).lookup "success") = some false ∧
    getStr ((failDict "Action Failed" ([] : Dict)).lookup "error") =
      some "Action Failed" ∧
    (failDict "Action Failed" ([] : Dict)).lookup "context" =
      some (Value.dict ([] : Dict)) ∧
    (failDict "Action Failed" ([] : Dict)).lookup "results" = none ∧
    ∃ pre cid post, ["A", "B"] = pre ++ cid :: post ∧
      ({ trace := ["A", "B"] } : RunState).trace = ({} : RunState).trace ++ pre ++ [cid] :=
  claim_C2 behRaiseB wfPair ["A", "B"] {} "Action Failed" { trace := ["A", "B"] } rfl

/-- Counterexample to C2 as stated: in the concrete failing run, step A had
completed before B raised (the trace records both), yet the returned dict
carries no results key at all — the per-step records are not returned. -/
theorem claim_C2_counterexample :
    executeWorkflow behRaiseB wfPair =
      some (failDict "Action Failed" [], { trace := ["A", "B"] }) ∧
    (failDict "Action Failed" ([] : Dict)).lookup "results" = none ∧
    ({ trace := ["A", "B"] } : RunState).trace = ["A", "B"] :=
  ⟨rfl, rfl, rfl⟩

/-- C3.  In reactive mode the listener processes every delivered event as an
independent cycle, whatever the behavior of the actions: every cycle of the log
attempts every action component in order (a raise or a success=False result is
recorded in the cycle log and the chain continues), and the listener reaches
every subsequent event. -/
theorem claim_C3 (beh : Behavior) (components : List (String × StepConfig))
    (triggerCfg : StepConfig) (acts : List String) (events : List Dict)
    (st : RunState) :
    (processEvents beh components triggerCfg acts events st).2.map
      (fun log => log.map CycleStep.cid) = events.map (fun _ => acts) := by
  induction events generalizing st with
  | nil => rfl
  | cons m ms ih =>
    rw [processEvents]
    show List.map (fun log => log.map CycleStep.cid)
        ((workflowCallback beh components triggerCfg acts m st).2 ::
          (processEvents beh components triggerCfg acts ms
            (workflowCallback beh components triggerCfg acts m st).1).2) =
      List.map (fun _ => acts) (m :: ms)
    rw [List.map_cons, List.map_cons,
      workflowCallback_attempts_all beh components triggerCfg acts m st, ih]

/-- C4.  On the documented input — the context binds name to Alice and the text
carries one name token — resolve_placeholders never returns (the substitution
callback re-acquires the held lock), instead of producing the substituted text;
the engine's lock-free bypass produces the value the specification (and
tests/core/test_context.py) expect. -/
theorem claim_C4 :
    resolvePlaceholders { data := [("name", Value.str "Alice")], locked := false }
      "Hello, \x7b\x7bname\x7d\x7d!" = none ∧
    lockFreeResolveStr [("name", Value.str "Alice")] "Hello, \x7b\x7bname\x7d\x7d!" =
      "Hello, Alice!" := by
  exact ⟨by decide, by decide⟩

/-- C5.  With the lock free (its resting state), resolve_placeholders on any
text containing a placeholder token never returns, because the substitution
callback calls get on the already-held non-reentrant lock; resolve_config on
any config dict containing a token therefore never returns either (this is what
cleanup and the reactive startup invoke); the engine's step path bypasses the
lock entirely and its manual substitution rewrites a bound token to the
stringified value. -/
theorem claim_C5 (c : Ctx) (text : String) (config : List (String × Value))
    (data : List (String × Value)) (ph : String) (v : Value)
    (hlock : c.locked = false)
    (hph : placeholders text ≠ [])
    (hcfg : entriesHavePH config = true)
    (hne : ph.toList ≠ [])
    (hnb : ∀ ch ∈ ph.toList, ¬ ch = '}')
    (hv : data.lookup ph = some v)
    (hnn : isVNone v = false) :
    resolvePlaceholders c text = none ∧
    resolveConfigEntries c config = none ∧
    lockFreeResolveStr data (phToken ph) = pyStr v := by
  refine ⟨?_, resolveConfigEntries_ph c hlock config hcfg,
    lockFreeResolveStr_token data ph v hne hnb hv hnn⟩
  rw [resolvePlaceholders_spec c hlock text, if_neg hph]

/-- Witness for C5 at the Alice context and a one-token text. -/
theorem claim_C5_witness :
    resolvePlaceholders { data := [("name", Value.str "Alice")], locked := false }
      "Hi \x7b\x7bname\x7d\x7d" = none ∧
    resolveConfigEntries { data := [("name", Value.str "Alice")], locked := false }
      [("greeting", Value.str "Hi \x7b\x7bname\x7d\x7d")] = none ∧
    lockFreeResolveStr [("name", Value.str "Alice")] (phToken "name") =
      pyStr (Value.str "Alice") :=
  claim_C5 { data := [("name", Value.str "Alice")], locked := false }
    "Hi \x7b\x7bname\x7d\x7d" [("greeting", Value.str "Hi \x7b\x7bname\x7d\x7d")]
    [("name", Value.str "Alice")] "name" (Value.str "Alice")
    rfl (by decide) (by decide) (by decide) (by decide) rfl rfl

/-- C6.  A returning cleanup never touches the instances that exist when it is
called: it only appends freshly created event objects, stops exactly those (they
join non-listening), leaves the context unchanged, and can be invoked again from
its own result state without error — so repeated cleanup is safe, but a
listener started by the run keeps its listening flag. -/
theorem claim_C6 (beh : Behavior) (comps : List (String × StepConfig))
    (st st2 : RunState) (h : cleanupS beh comps st = some st2) :
    (∃ news, st2.insts = st.insts ++ news ∧ ∀ i ∈ news, i.listening = false) ∧
    st2.ctx = st.ctx ∧
    ∃ st3, cleanupS beh comps st2 = some st3 ∧
      ∃ news2, st3.insts = st2.insts ++ news2 ∧ ∀ i ∈ news2, i.listening = false := by
  rcases cleanupS_shape comps st st2 h with ⟨hctx, news, hi, hl⟩
  rcases cleanupS_again comps st st2 st2 h hctx with ⟨st3, h3⟩
  rcases cleanupS_shape comps st2 st3 h3 with ⟨hctx3, news2, hi3, hl3⟩
  exact ⟨⟨news, hi, hl⟩, hctx, st3, h3, news2, hi3, hl3⟩

/-- Witness for C6 at the state a reactive run leaves behind. -/
theorem claim_C6_witness :
    (∃ news, ({ insts := [⟨0, "T", true⟩, ⟨1, "T", false⟩], nextId := 2 } :
        RunState).insts =
      ({ insts := [⟨0, "T", true⟩], nextId := 1 } : RunState).insts ++ news ∧
      ∀ i ∈ news, i.listening = false) ∧
    ({ insts := [⟨0, "T", true⟩, ⟨1, "T", false⟩], nextId := 2 } : RunState).ctx =
      ({ insts := [⟨0, "T", true⟩], nextId := 1 } : RunState).ctx ∧
    ∃ st3, cleanupS behOk cmpsReactive
        { insts := [⟨0, "T", true⟩, ⟨1, "T", false⟩], nextId := 2 } = some st3 ∧
      ∃ news2, st3.insts =
        ({ insts := [⟨0, "T", true⟩, ⟨1, "T", false⟩], nextId := 2 } :
          RunState).insts ++ news2 ∧
        ∀ i ∈ news2, i.listening = false :=
  claim_C6 behOk cmpsReactive { insts := [⟨0, "T", true⟩], nextId := 1 }
    { insts := [⟨0, "T", true⟩, ⟨1, "T", false⟩], nextId := 2 } rfl

/-- Counterexample to C6 as stated: the reactive run starts listener 0, cleanup
creates and stops a fresh instance 1, and the started listener 0 is still
listening afterwards — cleanup does not leave all listeners stopped, because it
addresses a new event object rather than the one the run started. -/
theorem claim_C6_counterexample :
    executeWorkflow behOk wfReactive =
      some (reactiveOkDict ["T"] ["A"] [],
        { insts := [⟨0, "T", true⟩], nextId := 1 }) ∧
    cleanupS behOk cmpsReactive { insts := [⟨0, "T", true⟩], nextId := 1 } =
      some { insts := [⟨0, "T", true⟩, ⟨1, "T", false⟩], nextId := 2 } ∧
    instRunning [⟨0, "T", true⟩, ⟨1, "T", false⟩] 0 = true :=
  ⟨rfl, rfl, rfl⟩

/-! ## The one-shot trigger timeout (slack.py 320-399 with workflow.py 216-237) -/

theorem slackReceiveExecute_timeout (config : Dict) (cb : Bool)
    (hch : truthy (dgetD config "channel" .vnone) = true)
    (hto : isIntNegOne (dgetD config "timeout" (.int (-1))) = false) :
    slackReceiveExecute config true cb none =
      some (Except.ok (slackTimeoutResult (dgetD config "channel" .vnone)
        (dgetD config "timeout" (.int (-1))))) := by
  simp [slackReceiveExecute, hch, hto]

theorem slackTimeoutResult_success (channel timeout : Value) :
    getBool ((slackTimeoutResult channel timeout).lookup "success") = some false := by
  rw [slackTimeoutResult, lookup_cons_ite, if_neg (by decide), lookup_cons_ite,
    if_neg (by decide), lookup_cons_ite, if_neg (by decide), lookup_cons_ite,
    if_neg (by decide), lookup_cons_ite, if_pos rfl]
  rfl

theorem slackTimeoutResult_error (channel timeout : Value) :
    getStr ((slackTimeoutResult channel timeout).lookup "error") =
      some ("No matching message received within " ++ pyStr timeout ++ " seconds") := by
  rw [slackTimeoutResult, lookup_cons_ite, if_neg (by decide), lookup_cons_ite,
    if_neg (by decide), lookup_cons_ite, if_neg (by decide), lookup_cons_ite,
    if_neg (by decide), lookup_cons_ite, if_neg (by decide), lookup_cons_ite,
    if_pos rfl]
  rfl

theorem slackTimeoutResult_mentions_timeout (timeout : Value) :
    strContains ("No matching message received within " ++ pyStr timeout ++ " seconds")
      (pyStr timeout) = true := by
  rw [strContains, decide_eq_true_iff]
  exact ⟨"No matching message received within ".toList, " seconds".toList, rfl⟩


/-- C7.  A one-shot trigger whose wait elapses reports a non-raising result
with success False and an error naming the configured timeout value — but the
classification pass of execute treats that result as fatal: the run returns the
trigger-failed dict at once and no later step of the order executes. -/
theorem claim_C7 (config : Dict) (cb : Bool) (beh : Behavior) (wf : Workflow)
    (cid : String) (rest : List String) (r : Dict) (st3 : RunState)
    (hch : truthy (dgetD config "channel" .vnone) = true)
    (hto : isIntNegOne (dgetD config "timeout" (.int (-1))) = false)
    (hsort : topologicalSort wf.components wf.dependencies = Except.ok (cid :: rest))
    (htrig : (stepCfg wf.components cid).is_trigger = true)
    (hcfg : isIntNegOne (dgetD (stepCfg wf.components cid).config "timeout"
      (.int (-1))) = false)
    (hout : executeComponentS beh {} cid (stepCfg wf.components cid) =
      Except.ok (r, st3))
    (hfail : truthy (dgetD r "success" (.bool false)) = false) :
    slackReceiveExecute config true cb none =
      some (Except.ok (slackTimeoutResult (dgetD config "channel" .vnone)
        (dgetD config "timeout" (.int (-1))))) ∧
    getBool ((slackTimeoutResult (dgetD config "channel" .vnone)
      (dgetD config "timeout" (.int (-1)))).lookup "success") = some false ∧
    getStr ((slackTimeoutResult (dgetD config "channel" .vnone)
      (dgetD config "timeout" (.int (-1)))).lookup "error") =
      some ("No matching message received within " ++
        pyStr (dgetD config "timeout" (.int (-1))) ++ " seconds") ∧
    strContains ("No matching message received within " ++
      pyStr (dgetD config "timeout" (.int (-1))) ++ " seconds")
      (pyStr (dgetD config "timeout" (.int (-1)))) = true ∧
    executeWorkflow beh wf = some (failDict ("Trigger " ++ cid ++ " failed: " ++
      pyStr (dgetD r "error" (.str "Unknown error"))) st3.ctx, st3) ∧
    st3.trace = [cid] := by
  refine ⟨slackReceiveExecute_timeout config cb hch hto,
    slackTimeoutResult_success _ _, slackTimeoutResult_error _ _,
    slackTimeoutResult_mentions_timeout _, ?_, ?_⟩
  · rw [executeWorkflow_sortOk beh wf (cid :: rest) hsort,
      classifyPass_cons_trigger_run htrig hcfg hout, if_neg (by simp [hfail]),
      executeAfterClassify_early]
  · have := executeComponentS_ok_trace hout
    simpa using this

/-- Witness for C7 at the one-shot slack workflow. -/
theorem claim_C7_witness :
    slackReceiveExecute [("timeout", Value.int 1), ("channel", Value.str "#general")]
      true false none =
      some (Except.ok (slackTimeoutResult
        (dgetD [("timeout", Value.int 1), ("channel", Value.str "#general")]
          "channel" .vnone)
        (dgetD [("timeout", Value.int 1), ("channel", Value.str "#general")]
          "timeout" (.int (-1))))) ∧
    getBool ((slackTimeoutResult
      (dgetD [("timeout", Value.int 1), ("channel", Value.str "#general")]
        "channel" .vnone)
      (dgetD [("timeout", Value.int 1), ("channel", Value.str "#general")]
        "timeout" (.int (-1)))).lookup "success") = some false ∧
    getStr ((slackTimeoutResult
      (dgetD [("timeout", Value.int 1), ("channel", Value.str "#general")]
        "channel" .vnone)
      (dgetD [("timeout", Value.int 1), ("channel", Value.str "#general")]
        "timeout" (.int (-1)))).lookup "error") =
      some ("No matching message received within " ++
        pyStr (dgetD [("timeout", Value.int 1), ("channel", Value.str "#general")]
          "timeout" (.int (-1))) ++ " seconds") ∧
    strContains ("No matching message received within " ++
      pyStr (dgetD [("timeout", Value.int 1), ("channel", Value.str "#general")]
        "timeout" (.int (-1))) ++ " seconds")
      (pyStr (dgetD [("timeout", Value.int 1), ("channel", Value.str "#general")]
        "timeout" (.int (-1)))) = true ∧
    executeWorkflow behSlackTimeout wfOneShot =
      some (failDict ("Trigger " ++ "T" ++ " failed: " ++
        pyStr (dgetD rOneShot "error" (.str "Unknown error"))) stOneShot.ctx,
        stOneShot) ∧
    stOneShot.trace = ["T"] :=
  claim_C7 [("timeout", Value.int 1), ("channel", Value.str "#general")] false
    behSlackTimeout wfOneShot "T" ["A"] rOneShot stOneShot
    rfl rfl rfl rfl rfl rfl rfl

/-- Counterexample to C7 as stated: in the concrete one-shot run the trigger's
timeout result (success False, error naming the 1-second wait) makes execute
return the trigger-failed dict immediately — the action A never runs (the trace
stops at T), so the timeout is fatal to the run. -/
theorem claim_C7_counterexample :
    executeWorkflow behSlackTimeout wfOneShot =
      some (failDict ("Trigger " ++ "T" ++ " failed: " ++
        pyStr (dgetD rOneShot "error" (.str "Unknown error"))) [], stOneShot) ∧
    getStr ((failDict ("Trigger " ++ "T" ++ " failed: " ++
      pyStr (dgetD rOneShot "error" (.str "Unknown error"))) []).lookup "error") =
      some "Trigger T failed: No matching message received within 1 seconds" ∧
    stOneShot.trace = ["T"] :=
  ⟨rfl, rfl, rfl⟩

/-- C8.  The analyzer records an edge from B to A exactly when some string
parameter of B carries both brace pairs and one of its tokens appears among the
output-alias values of the distinct step A (so an unmatched token yields no
edge and no error); and whenever the relation is acyclic, the computed order
places every producer of a step before it. -/
theorem claim_C8 (components : List (String × StepConfig)) (x y : String)
    (hidnd : (components.map Prod.fst).Nodup) :
    (y ∈ depsOf (buildDependencyGraph components) x ↔ EdgeSpec components x y) ∧
    (Acyclic (buildDependencyGraph components) → EdgeSpec components x y →
      ∃ order i, topologicalSort components (buildDependencyGraph components) =
          Except.ok order ∧
        order[i]? = some x ∧ y ∈ order.take i) := by
  refine ⟨mem_buildDependencyGraph_iff components x y, fun hacyc hedge => ?_⟩
  rcases topologicalSort_ok_of_acyclic components hidnd hacyc with
    ⟨order, hok, hperm, hord⟩
  have hxmem : x ∈ components.map Prod.fst := by
    rcases hedge with ⟨p, hp, hpx, _⟩
    rw [← hpx]
    exact List.mem_map.mpr ⟨p, hp, rfl⟩
  rcases List.mem_iff_getElem?.mp (hperm.mem_iff.mpr hxmem) with ⟨i, hi⟩
  exact ⟨order, i, hok, hi,
    hord i x hi y ((mem_buildDependencyGraph_iff components x y).mpr hedge)⟩

/-- Witness for C8 at the alias pair: B consumes x, A produces it. -/
theorem claim_C8_witness :
    ("A" ∈ depsOf (buildDependencyGraph cmpsAliases) "B" ↔
      EdgeSpec cmpsAliases "B" "A") ∧
    (Acyclic (buildDependencyGraph cmpsAliases) → EdgeSpec cmpsAliases "B" "A" →
      ∃ order i, topologicalSort cmpsAliases (buildDependencyGraph cmpsAliases) =
          Except.ok order ∧
        order[i]? = some "B" ∧ "A" ∈ order.take i) :=
  claim_C8 cmpsAliases "B" "A" (by decide)

/-- Counterexample to C8 as stated: B references both aliases x and y of A, so
after removing x from A's output mapping the inferred edge B→A persists through
y — removing the single alias does not remove the edge. -/
theorem claim_C8_counterexample :
    buildDependencyGraph cmpsAliases = [("B", ["A"])] ∧
    buildDependencyGraph cmpsAliasesPruned = [("B", ["A"])] :=
  ⟨rfl, rfl⟩

/-- C9.  The snapshot of get_all is a fresh top-level dict: overwriting the
snapshot object itself (rebinding or removing its keys) cannot change what any
subsequent get on the context observes.  (Nested values are shared — see the
counterexample.) -/
theorem claim_C9 (h : Heap) (ctxAddr a2 : Nat) (h2 : Heap) (o : PyObj)
    (key : String) (fuel : Nat) (hwf : HeapWF h)
    (hcopy : getAllH h ctxAddr = some (a2, h2)) :
    ctxGetH (hset h2 a2 o) ctxAddr key fuel = ctxGetH h ctxAddr key fuel := by
  rcases hes : hget h ctxAddr with _ | ob
  · rw [getAllH, hes] at hcopy
    cases hcopy
  rcases ob with v | es
  · rw [getAllH, hes] at hcopy
    cases hcopy
  rw [getAllH, hes] at hcopy
  have hcopy2 : some (halloc h (PyObj.pdict es)) = some (a2, h2) := hcopy
  rw [halloc] at hcopy2
  injection hcopy2 with hpair
  have ha2 : a2 = h.next := (congrArg Prod.fst hpair : h.next = a2).symm
  have hh2 : h2 =
      { cells := h.cells ++ [(h.next, PyObj.pdict es)],
        next := h.next + 1 } :=
    (congrArg Prod.snd hpair :
      ({ cells := h.cells ++ [(h.next, PyObj.pdict es)],
         next := h.next + 1 } : Heap) = h2).symm
  subst ha2
  subst hh2
  have hlt : ∀ p ∈ h.cells, p.1 < h.next := fun p hp => (hwf.2 p hp).1
  have hframe : ∀ a, a < h.next →
      hget (hset
        { cells := h.cells ++ [(h.next, PyObj.pdict es)],
          next := h.next + 1 } h.next o) a = hget h a :=
    fun a ha => hget_frame h es o hlt a ha
  rw [ctxGetH, ctxGetH, hframe ctxAddr (hget_lt_next hwf hes).1, hes]
  show (match List.lookup key es with
    | some a => deepRead (hset
        { cells := h.cells ++ [(h.next, PyObj.pdict es)],
          next := h.next + 1 } h.next o) fuel a
    | none => some Value.vnone) =
    (match List.lookup key es with
    | some a => deepRead h fuel a
    | none => some Value.vnone)
  cases hlk : es.lookup key with
  | none => rfl
  | some addr =>
    have haddr : addr < h.next :=
      (hget_lt_next hwf hes).2 addr
        (List.mem_map.mpr ⟨(key, addr), mem_of_lookup_eq_some hlk, rfl⟩)
    exact deepRead_frame hwf _ hframe fuel addr haddr

/-- The concrete nested heap is well formed. -/
theorem heapNested_wf : HeapWF heapNested := by
  unfold HeapWF
  decide

/-- Witness for C9 at the nested heap: clearing the snapshot dict leaves get
unchanged. -/
theorem claim_C9_witness :
    ctxGetH (hset heapSnap 3 (PyObj.pdict [])) 0 "user" 3 =
      ctxGetH heapNested 0 "user" 3 :=
  claim_C9 heapNested 0 3 heapSnap (PyObj.pdict []) "user" 3 heapNested_wf rfl

/-- Counterexample to C9 as stated: the snapshot shares the nested user object
(address 1) with the context, so assigning Bob into the snapshot's nested dict
changes what a subsequent get on the context returns — mutations of nested
values reachable from the snapshot do affect the context. -/
theorem claim_C9_counterexample :
    getAllH heapNested 0 = some (3, heapSnap) ∧
    ctxGetH heapNested 0 "user" 3 = some (.dict [("name", .str "Alice")]) ∧
    hget heapSnap 3 = some (.pdict [("user", 1)]) ∧
    ctxGetH (hset (halloc heapSnap (.prim (.str "Bob"))).2 1
        (.pdict [("name", (halloc heapSnap (.prim (.str "Bob"))).1)]))
      0 "user" 3 = some (.dict [("name", .str "Bob")]) :=
  ⟨rfl, rfl, rfl, rfl⟩

/-- Behavior behOk satisfies the always-succeeding interface. -/
theorem allOk_behOk : AllOk behOk :=
  ⟨fun _ _ => rfl,
   fun _ _ _ => ⟨[("success", .bool true), ("output", .str "action_output")], rfl, rfl⟩,
   fun _ _ _ => ⟨[("success", .bool true), ("event_data", .str "event_output")], rfl, rfl⟩⟩

/-- C10.  Without persistent triggers, a succeeding finite-timeout trigger step
is dispatched twice by execute: once by the classification pass and once more
by the batch pass over the full order — the final trace is the trigger steps
followed by the whole order, and the trigger's id occurs exactly twice. -/
theorem claim_C10 (beh : Behavior) (wf : Workflow) (order : List String)
    (t : String) (hAll : AllOk beh)
    (hsort : topologicalSort wf.components wf.dependencies = Except.ok order)
    (hond : order.Nodup)
    (hnp : ∀ cid ∈ order, (stepCfg wf.components cid).is_trigger = true →
      isIntNegOne (dgetD (stepCfg wf.components cid).config "timeout"
        (.int (-1))) = false)
    (ht : t ∈ order) (htrig : isTrigStep wf.components t = true) :
    ∃ res st2, executeWorkflow beh wf = some (res, st2) ∧
      st2.trace = order.filter (fun cid => isTrigStep wf.components cid) ++ order ∧
      st2.trace.count t = 2 := by
  rw [executeWorkflow_sortOk beh wf order hsort]
  rcases classifyPass_allOk hAll wf.components order {} [] [] hnp with
    ⟨st1, hcls, htr1⟩
  rw [hcls, executeAfterClassify_done_batch]
  rcases batchLoop_allOk hAll wf.components order st1 [] with
    ⟨res0, st2, hloop, htr2⟩
  rw [executeBatchTail, hloop]
  have h0 : ({} : RunState).trace = [] := rfl
  refine ⟨_, st2, rfl, ?_, ?_⟩
  · rw [htr2, htr1, h0, List.nil_append]
  · rw [htr2, htr1, h0, List.nil_append, List.count_append,
      List.count_filter htrig, List.count_eq_one_of_mem hond ht]

/-- Witness for C10 at the one-shot workflow under the always-succeeding
behavior. -/
theorem claim_C10_witness :
    ∃ res st2, executeWorkflow behOk wfOneShot = some (res, st2) ∧
      st2.trace = ["T", "A"].filter (fun cid => isTrigStep wfOneShot.components cid)
        ++ ["T", "A"] ∧
      st2.trace.count "T" = 2 :=
  claim_C10 behOk wfOneShot ["T", "A"] "T" allOk_behOk rfl (by decide) (by decide)
    (by decide) rfl

end WorkflowManager
